import Mathlib

namespace SDOMLlite

/-- Days from 0000-03-01 to the start of March-based year-of-era `y` (`y ≤ 400`). -/
def doeOfYoe (y : Nat) : Nat := 365 * y + y / 4 + y / 400 - y / 100

/-- Year-of-era containing day-of-era `doe`: initial guess `doe / 366`, one fixup step. -/
def yoeOfDoe (doe : Nat) : Nat :=
  if doe < doeOfYoe (doe / 366 + 1) then doe / 366 else doe / 366 + 1

/-- Day within its March-based year-of-era. -/
def doyOfDoe (doe : Nat) : Nat := doe - doeOfYoe (yoeOfDoe doe)

/-- March-based month index (0 = March, ..., 11 = February) from day-of-year. -/
def mpOfDoy (doy : Nat) : Nat := (5 * doy + 2) / 153

/-- First day-of-year of March-based month `mp`. -/
def monthStart (mp : Nat) : Nat := (153 * mp + 2) / 5

/-- Civil month (1-12) from March-based month index. -/
def monthOfMp (mp : Nat) : Nat := if mp < 10 then mp + 3 else mp - 9

/-- March-based month index from civil month (1-12). -/
def mpOfMonth (m : Nat) : Nat := if 2 < m then m - 3 else m + 9

/-- Civil month of the day `z` (days since 0000-03-01). -/
def cfdMonth (z : Nat) : Nat := monthOfMp (mpOfDoy (doyOfDoe (z % 146097)))

/-- Civil year of the day `z`. -/
def cfdYear (z : Nat) : Nat :=
  z / 146097 * 400 + yoeOfDoe (z % 146097) + (if cfdMonth z ≤ 2 then 1 else 0)

/-- Civil day-of-month (1-31) of the day `z`. -/
def cfdDay (z : Nat) : Nat :=
  doyOfDoe (z % 146097) - monthStart (mpOfDoy (doyOfDoe (z % 146097))) + 1

/-- Civil (year, month, day) from days since 0000-03-01. -/
def civilFromDays (z : Nat) : Nat × Nat × Nat := (cfdYear z, cfdMonth z, cfdDay z)

/-- Days since 0000-03-01 from a civil (year, month, day). -/
def daysFromCivil (y m d : Nat) : Nat :=
  (if m ≤ 2 then y - 1 else y) / 400 * 146097
    + doeOfYoe ((if m ≤ 2 then y - 1 else y) % 400)
    + monthStart (mpOfMonth m) + (d - 1)

/-- Gregorian leap-year test, as Python `calendar.isleap` / `datetime` use it. -/
def isLeap (y : Nat) : Bool := y % 4 == 0 && (y % 100 != 0 || y % 400 == 0)

/-- Length of civil month `m` in year `y` (Python `datetime` day-range validation). -/
def daysInMonth (y m : Nat) : Nat :=
  if m = 2 then (if isLeap y then 29 else 28)
  else if m = 4 ∨ m = 6 ∨ m = 9 ∨ m = 11 then 30 else 31

theorem isLeap_iff (y : Nat) :
    isLeap y = true ↔ (y % 4 = 0 ∧ (y % 100 ≠ 0 ∨ y % 400 = 0)) := by
  simp [isLeap, Bool.and_eq_true, Bool.or_eq_true, beq_iff_eq, bne_iff_ne]

theorem doeOfYoe_mono {a b : Nat} (h : a ≤ b) : doeOfYoe a ≤ doeOfYoe b := by
  have h4 : a / 4 ≤ b / 4 := Nat.div_le_div_right h
  have h400 : a / 400 ≤ b / 400 := Nat.div_le_div_right h
  have h100 : a / 100 ≤ b / 100 := Nat.div_le_div_right h
  unfold doeOfYoe
  omega

theorem doeOfYoe_400 : doeOfYoe 400 = 146097 := by
  unfold doeOfYoe
  omega

theorem leapStep (y : Nat) :
    y / 4 ≤ (y + 1) / 4 ∧ (y + 1) / 4 ≤ y / 4 + 1 ∧
    y / 100 ≤ (y + 1) / 100 ∧ (y + 1) / 100 ≤ y / 100 + 1 ∧
    y / 400 ≤ (y + 1) / 400 ∧ (y + 1) / 400 ≤ y / 400 + 1 ∧
    ((y + 1) / 100 = y / 100 + 1 → (y + 1) / 4 = y / 4 + 1) ∧
    ((y + 1) / 400 = y / 400 + 1 → (y + 1) / 100 = y / 100 + 1) := by
  refine ⟨by omega, by omega, by omega, by omega, by omega, by omega, ?_, ?_⟩
  · intro h
    omega
  · intro h
    omega

theorem yearLen_bounds (y : Nat) :
    doeOfYoe y + 365 ≤ doeOfYoe (y + 1) ∧ doeOfYoe (y + 1) ≤ doeOfYoe y + 366 := by
  have hs := leapStep y
  unfold doeOfYoe
  omega

theorem yoeOfDoe_bracket {doe : Nat} (h : doe < 146097) :
    doeOfYoe (yoeOfDoe doe) ≤ doe ∧ doe < doeOfYoe (yoeOfDoe doe + 1) ∧
      yoeOfDoe doe ≤ 399 := by
  unfold yoeOfDoe doeOfYoe
  split <;> omega

theorem yoeOfDoe_eq {yv doe : Nat} (h : doe < 146097) (h1 : doeOfYoe yv ≤ doe)
    (h2 : doe < doeOfYoe (yv + 1)) : yoeOfDoe doe = yv := by
  have hb := yoeOfDoe_bracket h
  rcases Nat.lt_trichotomy (yoeOfDoe doe) yv with hlt | heq | hgt
  · have hm := doeOfYoe_mono (show yoeOfDoe doe + 1 ≤ yv by omega)
    omega
  · exact heq
  · have hm := doeOfYoe_mono (show yv + 1 ≤ yoeOfDoe doe by omega)
    omega

theorem doyOfDoe_le {doe : Nat} (h : doe < 146097) : doyOfDoe doe ≤ 365 := by
  have hb := yoeOfDoe_bracket h
  have hl := yearLen_bounds (yoeOfDoe doe)
  unfold doyOfDoe
  omega

theorem mp_bracket {doy : Nat} (h : doy ≤ 365) :
    monthStart (mpOfDoy doy) ≤ doy ∧ doy < monthStart (mpOfDoy doy + 1) ∧
      mpOfDoy doy ≤ 11 := by
  unfold monthStart mpOfDoy
  omega

theorem mpOfDoy_eq {mp doy : Nat} (h1 : monthStart mp ≤ doy)
    (h2 : doy < monthStart (mp + 1)) : mpOfDoy doy = mp := by
  unfold monthStart at h1 h2
  unfold mpOfDoy
  omega

theorem month_code {mp : Nat} (h : mp ≤ 11) :
    mpOfMonth (monthOfMp mp) = mp ∧ 1 ≤ monthOfMp mp ∧ monthOfMp mp ≤ 12 ∧
      (monthOfMp mp ≤ 2 ↔ 10 ≤ mp) := by
  unfold mpOfMonth monthOfMp
  split <;> split <;> omega

/-- Recomposition: `daysFromCivil` inverts the era/year/month/day decomposition. -/
theorem recompose (era yoe doy : Nat) (hyoe : yoe ≤ 399) (hdoy : doy ≤ 365) :
    daysFromCivil
      (era * 400 + yoe + (if monthOfMp (mpOfDoy doy) ≤ 2 then 1 else 0))
      (monthOfMp (mpOfDoy doy))
      (doy - monthStart (mpOfDoy doy) + 1)
    = era * 146097 + doeOfYoe yoe + doy := by
  have hmpb := mp_bracket hdoy
  have hcode := month_code hmpb.2.2
  unfold daysFromCivil
  rw [hcode.1]
  rcases Nat.lt_or_ge (mpOfDoy doy) 10 with hc | hc
  · have hm3 : ¬ monthOfMp (mpOfDoy doy) ≤ 2 := by rw [hcode.2.2.2]; omega
    simp only [if_neg hm3]
    have e0 : era * 400 + yoe + 0 = era * 400 + yoe := by omega
    rw [e0]
    have e1 : (era * 400 + yoe) / 400 = era := by omega
    have e2 : (era * 400 + yoe) % 400 = yoe := by omega
    rw [e1, e2]
    omega
  · have hm3 : monthOfMp (mpOfDoy doy) ≤ 2 := by rw [hcode.2.2.2]; omega
    simp only [if_pos hm3]
    have e0 : era * 400 + yoe + 1 - 1 = era * 400 + yoe := by omega
    rw [e0]
    have e1 : (era * 400 + yoe) / 400 = era := by omega
    have e2 : (era * 400 + yoe) % 400 = yoe := by omega
    rw [e1, e2]
    omega

/-- Round trip days → civil → days. -/
theorem daysFromCivil_civilFromDays (z : Nat) :
    daysFromCivil (cfdYear z) (cfdMonth z) (cfdDay z) = z := by
  have hdoe : z % 146097 < 146097 := Nat.mod_lt _ (by norm_num)
  have hbr := yoeOfDoe_bracket hdoe
  have hdoy := doyOfDoe_le hdoe
  unfold cfdYear cfdMonth cfdDay
  rw [recompose (z / 146097) (yoeOfDoe (z % 146097)) (doyOfDoe (z % 146097))
    hbr.2.2 hdoy]
  unfold doyOfDoe
  omega

/-- Decomposition: `civilFromDays` recovers era, year, month and day. -/
theorem decompose (era yoe mp dm1 : Nat) (hyoe : yoe ≤ 399) (hmp : mp ≤ 11)
    (hlen : doeOfYoe yoe + (monthStart mp + dm1) < doeOfYoe (yoe + 1))
    (hm10 : mp ≤ 10 → monthStart mp + dm1 < monthStart (mp + 1)) :
    civilFromDays (era * 146097 + (doeOfYoe yoe + (monthStart mp + dm1))) =
      (era * 400 + yoe + (if monthOfMp mp ≤ 2 then 1 else 0), monthOfMp mp,
        dm1 + 1) := by
  have hlen' := yearLen_bounds yoe
  have h400 : doeOfYoe (yoe + 1) ≤ 146097 := by
    have := doeOfYoe_mono (show yoe + 1 ≤ 400 by omega)
    rw [doeOfYoe_400] at this
    exact this
  have hdoeLt : doeOfYoe yoe + (monthStart mp + dm1) < 146097 := by omega
  have hz1 : (era * 146097 + (doeOfYoe yoe + (monthStart mp + dm1))) % 146097
      = doeOfYoe yoe + (monthStart mp + dm1) := by omega
  have hz2 : (era * 146097 + (doeOfYoe yoe + (monthStart mp + dm1))) / 146097
      = era := by omega
  have hy : yoeOfDoe (doeOfYoe yoe + (monthStart mp + dm1)) = yoe :=
    yoeOfDoe_eq hdoeLt (by omega) (by omega)
  have hdoyeq : doyOfDoe (doeOfYoe yoe + (monthStart mp + dm1))
      = monthStart mp + dm1 := by
    unfold doyOfDoe
    rw [hy]
    omega
  have hmpeq : mpOfDoy (monthStart mp + dm1) = mp := by
    apply mpOfDoy_eq (by omega)
    rcases Nat.lt_or_ge 10 mp with hc | hc
    · have hmp11 : mp = 11 := by omega
      subst hmp11
      have : monthStart 12 = 367 := by unfold monthStart; omega
      rw [this]
      have h36 : monthStart 11 = 337 := by unfold monthStart; omega
      rw [h36] at hlen ⊢
      omega
    · exact hm10 hc
  unfold civilFromDays cfdYear cfdMonth cfdDay
  rw [hz1, hz2, hy, hdoyeq, hmpeq]
  have hday : monthStart mp + dm1 - monthStart mp + 1 = dm1 + 1 := by omega
  rw [hday]


theorem div4_step (y : Nat) : (y + 1) / 4 = y / 4 + 1 ↔ (y + 1) % 4 = 0 := by
  omega

theorem div100_step (y : Nat) : (y + 1) / 100 = y / 100 + 1 ↔ (y + 1) % 100 = 0 := by
  omega

theorem div400_step (y : Nat) : (y + 1) / 400 = y / 400 + 1 ↔ (y + 1) % 400 = 0 := by
  omega

theorem div4_flat (y : Nat) : (y + 1) % 4 ≠ 0 → (y + 1) / 4 = y / 4 := by
  omega

theorem div100_flat (y : Nat) : (y + 1) % 100 ≠ 0 → (y + 1) / 100 = y / 100 := by
  omega

theorem div400_flat (y : Nat) : (y + 1) % 400 ≠ 0 → (y + 1) / 400 = y / 400 := by
  omega

/-- The March-based year-of-era `yoe` has 366 days exactly when the civil year
`era * 400 + yoe + 1` containing its February is a Gregorian leap year. -/
theorem yearLen_leap (era yoe : Nat) (hyoe : yoe ≤ 399) :
    doeOfYoe (yoe + 1) = doeOfYoe yoe + 366 ↔
      isLeap (era * 400 + yoe + 1) = true := by
  rw [isLeap_iff]
  have ht4 : (era * 400 + yoe + 1) % 4 = (yoe + 1) % 4 := by omega
  have ht100 : (era * 400 + yoe + 1) % 100 = (yoe + 1) % 100 := by omega
  have ht400 : (era * 400 + yoe + 1) % 400 = (yoe + 1) % 400 := by omega
  rw [ht4, ht100, ht400]
  constructor
  · intro h366
    by_cases h4 : (yoe + 1) % 4 = 0
    · refine ⟨h4, ?_⟩
      by_cases h100 : (yoe + 1) % 100 = 0
      · right
        by_contra h400
        have e4 := (div4_step yoe).2 h4
        have e100 := (div100_step yoe).2 h100
        have e400 := div400_flat yoe h400
        unfold doeOfYoe at h366
        omega
      · exact Or.inl h100
    · exfalso
      have e4 := div4_flat yoe h4
      have h100 : (yoe + 1) % 100 ≠ 0 := by omega
      have h400 : (yoe + 1) % 400 ≠ 0 := by omega
      have e100 := div100_flat yoe h100
      have e400 := div400_flat yoe h400
      unfold doeOfYoe at h366
      omega
  · rintro ⟨h4, h⟩
    have e4 := (div4_step yoe).2 h4
    rcases h with h100 | h400
    · have h400 : (yoe + 1) % 400 ≠ 0 := by omega
      have e100 := div100_flat yoe h100
      have e400 := div400_flat yoe h400
      unfold doeOfYoe
      omega
    · have h100 : (yoe + 1) % 100 = 0 := by omega
      have e100 := (div100_step yoe).2 h100
      have e400 := (div400_step yoe).2 h400
      unfold doeOfYoe
      omega

/-- For the eleven March-based months March..January the day-of-month computed
from a day-of-year is at most the length of that civil month. -/
theorem dayLe_daysInMonth {doy : Nat} (yy : Nat) (h : doy ≤ 365)
    (hmp10 : mpOfDoy doy ≤ 10) :
    doy - monthStart (mpOfDoy doy) + 1 ≤ daysInMonth yy (monthOfMp (mpOfDoy doy)) := by
  have hb := mp_bracket h
  have hv : mpOfDoy doy = 0 ∨ mpOfDoy doy = 1 ∨ mpOfDoy doy = 2 ∨
      mpOfDoy doy = 3 ∨ mpOfDoy doy = 4 ∨ mpOfDoy doy = 5 ∨ mpOfDoy doy = 6 ∨
      mpOfDoy doy = 7 ∨ mpOfDoy doy = 8 ∨ mpOfDoy doy = 9 ∨
      mpOfDoy doy = 10 := by omega
  rcases hv with h0 | h0 | h0 | h0 | h0 | h0 | h0 | h0 | h0 | h0 | h0 <;>
    rw [h0] at hb ⊢ <;>
    norm_num [monthStart, monthOfMp, daysInMonth] at hb ⊢ <;>
    omega

/-- The output of `civilFromDays` is a valid Gregorian date. -/
theorem civilFromDays_valid (z : Nat) :
    1 ≤ cfdMonth z ∧ cfdMonth z ≤ 12 ∧ 1 ≤ cfdDay z ∧
      cfdDay z ≤ daysInMonth (cfdYear z) (cfdMonth z) := by
  have hdoe : z % 146097 < 146097 := Nat.mod_lt _ (by norm_num)
  have hbr := yoeOfDoe_bracket hdoe
  have hdoy := doyOfDoe_le hdoe
  have hmpb := mp_bracket hdoy
  have hcode := month_code hmpb.2.2
  have hyl := yearLen_bounds (yoeOfDoe (z % 146097))
  refine ⟨hcode.2.1, hcode.2.2.1, by unfold cfdDay; omega, ?_⟩
  rcases Nat.lt_or_ge (mpOfDoy (doyOfDoe (z % 146097))) 11 with hc | hc
  · unfold cfdDay cfdMonth
    exact dayLe_daysInMonth (cfdYear z) hdoy (by omega)
  · have hmp11 : mpOfDoy (doyOfDoe (z % 146097)) = 11 := by omega
    have hm2 : cfdMonth z = 2 := by
      unfold cfdMonth
      rw [hmp11]
      norm_num [monthOfMp]
    have hy1 : cfdYear z = z / 146097 * 400 + yoeOfDoe (z % 146097) + 1 := by
      unfold cfdYear
      rw [hm2]
      norm_num
    rw [hm2, hy1]
    unfold cfdDay daysInMonth
    rw [if_pos rfl, hmp11]
    have h337 : monthStart 11 = 337 := by norm_num [monthStart]
    rw [h337]
    rcases Nat.lt_or_ge (doyOfDoe (z % 146097)) 365 with hd | hd
    · split <;> omega
    · have h366 : doeOfYoe (yoeOfDoe (z % 146097) + 1)
          = doeOfYoe (yoeOfDoe (z % 146097)) + 366 := by
        unfold doyOfDoe at hd
        omega
      rw [yearLen_leap (z / 146097) (yoeOfDoe (z % 146097)) hbr.2.2] at h366
      rw [if_pos h366]
      omega

/-- Round trip civil → days → civil, for valid Gregorian dates. -/
theorem civilFromDays_daysFromCivil (y m d : Nat) (hy : 1 ≤ y) (hm1 : 1 ≤ m)
    (hm2 : m ≤ 12) (hd1 : 1 ≤ d) (hd2 : d ≤ daysInMonth y m) :
    civilFromDays (daysFromCivil y m d) = (y, m, d) := by
  have hv : m = 1 ∨ m = 2 ∨ m = 3 ∨ m = 4 ∨ m = 5 ∨ m = 6 ∨ m = 7 ∨ m = 8 ∨
      m = 9 ∨ m = 10 ∨ m = 11 ∨ m = 12 := by omega
  rcases hv with h | h | h | h | h | h | h | h | h | h | h | h
  · -- January
    subst h
    norm_num [daysInMonth] at hd2
    have hyl := yearLen_bounds ((y - 1) % 400)
    have harg : daysFromCivil y 1 d = (y - 1) / 400 * 146097 +
        (doeOfYoe ((y - 1) % 400) + (monthStart 10 + (d - 1))) := by
      unfold daysFromCivil mpOfMonth
      norm_num
      omega
    rw [harg, decompose ((y - 1) / 400) ((y - 1) % 400) 10 (d - 1) (by omega)
      (by norm_num) (by norm_num [monthStart]; omega)
      (by intro h10; norm_num [monthStart]; omega)]
    norm_num [monthOfMp]
    omega
  · -- February
    subst h
    norm_num [daysInMonth] at hd2
    have hyl := yearLen_bounds ((y - 1) % 400)
    have harg : daysFromCivil y 2 d = (y - 1) / 400 * 146097 +
        (doeOfYoe ((y - 1) % 400) + (monthStart 11 + (d - 1))) := by
      unfold daysFromCivil mpOfMonth
      norm_num
      omega
    have hlen : doeOfYoe ((y - 1) % 400) + (monthStart 11 + (d - 1)) <
        doeOfYoe ((y - 1) % 400 + 1) := by
      have h337 : monthStart 11 = 337 := by norm_num [monthStart]
      rw [h337]
      rcases Nat.lt_or_ge d 29 with hdd | hdd
      · omega
      · have hL : isLeap y = true := by
          cases hb : isLeap y
          · rw [hb] at hd2
            simp at hd2
            omega
          · rfl
        rw [hL] at hd2
        simp at hd2
        have h366 : doeOfYoe ((y - 1) % 400 + 1) = doeOfYoe ((y - 1) % 400) + 366 := by
          rw [yearLen_leap ((y - 1) / 400) ((y - 1) % 400) (by omega)]
          have hyy : (y - 1) / 400 * 400 + (y - 1) % 400 + 1 = y := by omega
          rw [hyy]
          exact hL
        omega
    rw [harg, decompose ((y - 1) / 400) ((y - 1) % 400) 11 (d - 1) (by omega)
      (by norm_num) hlen (by intro h10; omega)]
    norm_num [monthOfMp]
    omega
  · -- month 3
    subst h
    norm_num [daysInMonth] at hd2
    have hyl := yearLen_bounds (y % 400)
    have harg : daysFromCivil y 3 d = y / 400 * 146097 +
        (doeOfYoe (y % 400) + (monthStart 0 + (d - 1))) := by
      unfold daysFromCivil mpOfMonth
      norm_num
      omega
    rw [harg, decompose (y / 400) (y % 400) 0 (d - 1) (by omega) (by norm_num)
      (by norm_num [monthStart]; omega) (by intro h10; norm_num [monthStart]; omega)]
    norm_num [monthOfMp]
    omega
  · -- month 4
    subst h
    norm_num [daysInMonth] at hd2
    have hyl := yearLen_bounds (y % 400)
    have harg : daysFromCivil y 4 d = y / 400 * 146097 +
        (doeOfYoe (y % 400) + (monthStart 1 + (d - 1))) := by
      unfold daysFromCivil mpOfMonth
      norm_num
      omega
    rw [harg, decompose (y / 400) (y % 400) 1 (d - 1) (by omega) (by norm_num)
      (by norm_num [monthStart]; omega) (by intro h10; norm_num [monthStart]; omega)]
    norm_num [monthOfMp]
    omega
  · -- month 5
    subst h
    norm_num [daysInMonth] at hd2
    have hyl := yearLen_bounds (y % 400)
    have harg : daysFromCivil y 5 d = y / 400 * 146097 +
        (doeOfYoe (y % 400) + (monthStart 2 + (d - 1))) := by
      unfold daysFromCivil mpOfMonth
      norm_num
      omega
    rw [harg, decompose (y / 400) (y % 400) 2 (d - 1) (by omega) (by norm_num)
      (by norm_num [monthStart]; omega) (by intro h10; norm_num [monthStart]; omega)]
    norm_num [monthOfMp]
    omega
  · -- month 6
    subst h
    norm_num [daysInMonth] at hd2
    have hyl := yearLen_bounds (y % 400)
    have harg : daysFromCivil y 6 d = y / 400 * 146097 +
        (doeOfYoe (y % 400) + (monthStart 3 + (d - 1))) := by
      unfold daysFromCivil mpOfMonth
      norm_num
      omega
    rw [harg, decompose (y / 400) (y % 400) 3 (d - 1) (by omega) (by norm_num)
      (by norm_num [monthStart]; omega) (by intro h10; norm_num [monthStart]; omega)]
    norm_num [monthOfMp]
    omega
  · -- month 7
    subst h
    norm_num [daysInMonth] at hd2
    have hyl := yearLen_bounds (y % 400)
    have harg : daysFromCivil y 7 d = y / 400 * 146097 +
        (doeOfYoe (y % 400) + (monthStart 4 + (d - 1))) := by
      unfold daysFromCivil mpOfMonth
      norm_num
      omega
    rw [harg, decompose (y / 400) (y % 400) 4 (d - 1) (by omega) (by norm_num)
      (by norm_num [monthStart]; omega) (by intro h10; norm_num [monthStart]; omega)]
    norm_num [monthOfMp]
    omega
  · -- month 8
    subst h
    norm_num [daysInMonth] at hd2
    have hyl := yearLen_bounds (y % 400)
    have harg : daysFromCivil y 8 d = y / 400 * 146097 +
        (doeOfYoe (y % 400) + (monthStart 5 + (d - 1))) := by
      unfold daysFromCivil mpOfMonth
      norm_num
      omega
    rw [harg, decompose (y / 400) (y % 400) 5 (d - 1) (by omega) (by norm_num)
      (by norm_num [monthStart]; omega) (by intro h10; norm_num [monthStart]; omega)]
    norm_num [monthOfMp]
    omega
  · -- month 9
    subst h
    norm_num [daysInMonth] at hd2
    have hyl := yearLen_bounds (y % 400)
    have harg : daysFromCivil y 9 d = y / 400 * 146097 +
        (doeOfYoe (y % 400) + (monthStart 6 + (d - 1))) := by
      unfold daysFromCivil mpOfMonth
      norm_num
      omega
    rw [harg, decompose (y / 400) (y % 400) 6 (d - 1) (by omega) (by norm_num)
      (by norm_num [monthStart]; omega) (by intro h10; norm_num [monthStart]; omega)]
    norm_num [monthOfMp]
    omega
  · -- month 10
    subst h
    norm_num [daysInMonth] at hd2
    have hyl := yearLen_bounds (y % 400)
    have harg : daysFromCivil y 10 d = y / 400 * 146097 +
        (doeOfYoe (y % 400) + (monthStart 7 + (d - 1))) := by
      unfold daysFromCivil mpOfMonth
      norm_num
      omega
    rw [harg, decompose (y / 400) (y % 400) 7 (d - 1) (by omega) (by norm_num)
      (by norm_num [monthStart]; omega) (by intro h10; norm_num [monthStart]; omega)]
    norm_num [monthOfMp]
    omega
  · -- month 11
    subst h
    norm_num [daysInMonth] at hd2
    have hyl := yearLen_bounds (y % 400)
    have harg : daysFromCivil y 11 d = y / 400 * 146097 +
        (doeOfYoe (y % 400) + (monthStart 8 + (d - 1))) := by
      unfold daysFromCivil mpOfMonth
      norm_num
      omega
    rw [harg, decompose (y / 400) (y % 400) 8 (d - 1) (by omega) (by norm_num)
      (by norm_num [monthStart]; omega) (by intro h10; norm_num [monthStart]; omega)]
    norm_num [monthOfMp]
    omega
  · -- month 12
    subst h
    norm_num [daysInMonth] at hd2
    have hyl := yearLen_bounds (y % 400)
    have harg : daysFromCivil y 12 d = y / 400 * 146097 +
        (doeOfYoe (y % 400) + (monthStart 9 + (d - 1))) := by
      unfold daysFromCivil mpOfMonth
      norm_num
      omega
    rw [harg, decompose (y / 400) (y % 400) 9 (d - 1) (by omega) (by norm_num)
      (by norm_num [monthStart]; omega) (by intro h10; norm_num [monthStart]; omega)]
    norm_num [monthOfMp]
    omega

/-! ### Minute-level timestamps.

A timestamp models a Python `datetime` at minute resolution (zero seconds and
microseconds) as the number of minutes since 0000-03-01T00:00. Comparison and
`timedelta` arithmetic of such datetimes coincide with `Nat` arithmetic on this
representation. -/

/-- Minutes timestamp from civil fields (year, month, day, hour, minute). -/
def dtOfCivil (y mo d hh mi : Nat) : Nat :=
  daysFromCivil y mo d * 1440 + hh * 60 + mi

/-- Year field of a timestamp. -/
def dtYear (t : Nat) : Nat := cfdYear (t / 1440)

/-- Month field of a timestamp. -/
def dtMonth (t : Nat) : Nat := cfdMonth (t / 1440)

/-- Day field of a timestamp. -/
def dtDay (t : Nat) : Nat := cfdDay (t / 1440)

/-- Hour field of a timestamp. -/
def dtHour (t : Nat) : Nat := t % 1440 / 60

/-- Minute field of a timestamp. -/
def dtMinute (t : Nat) : Nat := t % 60

theorem dtOfCivil_fields (t : Nat) :
    dtOfCivil (dtYear t) (dtMonth t) (dtDay t) (dtHour t) (dtMinute t) = t := by
  unfold dtOfCivil dtYear dtMonth dtDay dtHour dtMinute
  rw [daysFromCivil_civilFromDays]
  omega

theorem dt_fields_of_civil (y mo d hh mi : Nat) (hy : 1 ≤ y) (hm1 : 1 ≤ mo)
    (hm2 : mo ≤ 12) (hd1 : 1 ≤ d) (hd2 : d ≤ daysInMonth y mo) (hh24 : hh ≤ 23)
    (mi60 : mi ≤ 59) :
    dtYear (dtOfCivil y mo d hh mi) = y ∧ dtMonth (dtOfCivil y mo d hh mi) = mo ∧
    dtDay (dtOfCivil y mo d hh mi) = d ∧ dtHour (dtOfCivil y mo d hh mi) = hh ∧
    dtMinute (dtOfCivil y mo d hh mi) = mi := by
  have hrt := civilFromDays_daysFromCivil y mo d hy hm1 hm2 hd1 hd2
  unfold civilFromDays at hrt
  simp only [Prod.mk.injEq] at hrt
  have hdiv : dtOfCivil y mo d hh mi / 1440 = daysFromCivil y mo d := by
    unfold dtOfCivil
    omega
  have hmod : dtOfCivil y mo d hh mi % 1440 = hh * 60 + mi := by
    unfold dtOfCivil
    omega
  have hmod60 : dtOfCivil y mo d hh mi % 60 = mi := by
    unfold dtOfCivil
    omega
  unfold dtYear dtMonth dtDay dtHour dtMinute
  rw [hdiv, hmod, hmod60]
  refine ⟨hrt.1, hrt.2.1, hrt.2.2, by omega, rfl⟩

/-! ### Fixed-width decimal formatting and parsing of timestamp prefixes.

Member names use the fixed-width prefix format YYYY/MM/DD/HHMM produced by
Python `strftime` with format string %Y/%m/%d/%H%M and parsed back by
`strptime` with the same format (the dataset convention per the container
naming convention; years are four digits, all other fields two digits). -/

/-- The decimal digit character for `n ≤ 9`. -/
def digitChar (n : Nat) : Char :=
  match n with
  | 0 => '0' | 1 => '1' | 2 => '2' | 3 => '3' | 4 => '4'
  | 5 => '5' | 6 => '6' | 7 => '7' | 8 => '8' | _ => '9'

/-- The value of a decimal digit character, if it is one (codes 48 to 57). -/
def charDigit (c : Char) : Option Nat :=
  if 48 ≤ c.toNat ∧ c.toNat ≤ 57 then some (c.toNat - 48) else none

theorem charDigit_digitChar {n : Nat} (h : n ≤ 9) : charDigit (digitChar n) = some n := by
  interval_cases n <;> rfl

theorem digitChar_charDigit {c : Char} {k : Nat} (h : charDigit c = some k) :
    digitChar k = c ∧ k ≤ 9 := by
  unfold charDigit at h
  split at h
  case _ hle =>
    injection h with h2
    have hk9 : k ≤ 9 := by omega
    refine ⟨?_, hk9⟩
    have hd : (digitChar k).toNat = k + 48 := by interval_cases k <;> rfl
    have htn : (digitChar k).toNat = c.toNat := by omega
    exact Char.eq_of_val_eq (UInt32.toNat.inj htn)
  case _ => exact Option.noConfusion h

/-- Two-digit zero-padded decimal rendering of `n ≤ 99`. -/
def pad2 (n : Nat) : List Char := [digitChar (n / 10), digitChar (n % 10)]

/-- Four-digit zero-padded decimal rendering of `n ≤ 9999`. -/
def pad4 (n : Nat) : List Char :=
  [digitChar (n / 1000), digitChar (n / 100 % 10), digitChar (n / 10 % 10),
    digitChar (n % 10)]

/-- Parse two decimal digit characters. -/
def parse2 (a b : Char) : Option Nat :=
  match charDigit a, charDigit b with
  | some x, some y => some (10 * x + y)
  | _, _ => none

/-- Parse four decimal digit characters. -/
def parse4 (a b c d : Char) : Option Nat :=
  match parse2 a b, parse2 c d with
  | some x, some y => some (100 * x + y)
  | _, _ => none

theorem parse2_pad2 {n : Nat} (h : n ≤ 99) :
    parse2 (digitChar (n / 10)) (digitChar (n % 10)) = some n := by
  unfold parse2
  rw [charDigit_digitChar (by omega), charDigit_digitChar (by omega)]
  simp only [Option.some.injEq]
  omega

theorem parse4_pad4 {n : Nat} (h : n ≤ 9999) :
    parse4 (digitChar (n / 1000)) (digitChar (n / 100 % 10))
      (digitChar (n / 10 % 10)) (digitChar (n % 10)) = some n := by
  unfold parse4
  rw [show parse2 (digitChar (n / 1000)) (digitChar (n / 100 % 10)) = some (n / 100) by
    unfold parse2
    rw [charDigit_digitChar (by omega), charDigit_digitChar (by omega)]
    simp only [Option.some.injEq]
    omega]
  rw [show parse2 (digitChar (n / 10 % 10)) (digitChar (n % 10)) = some (n % 100) by
    unfold parse2
    rw [charDigit_digitChar (by omega), charDigit_digitChar (by omega)]
    simp only [Option.some.injEq]
    omega]
  simp only [Option.some.injEq]
  omega

theorem pad2_parse2 {a b : Char} {x : Nat} (h : parse2 a b = some x) :
    pad2 x = [a, b] ∧ x ≤ 99 := by
  unfold parse2 at h
  split at h
  case _ da db ha hb =>
    injection h with h2
    have hda := digitChar_charDigit ha
    have hdb := digitChar_charDigit hb
    have hx10 : x / 10 = da := by omega
    have hx1 : x % 10 = db := by omega
    unfold pad2
    rw [hx10, hx1, hda.1, hdb.1]
    exact ⟨rfl, by omega⟩
  case _ =>
    exact Option.noConfusion h

theorem pad4_parse4 {a b c d : Char} {x : Nat} (h : parse4 a b c d = some x) :
    pad4 x = [a, b, c, d] ∧ x ≤ 9999 := by
  unfold parse4 at h
  split at h
  case _ hi lo hab hcd =>
    injection h with h2
    have h1 := pad2_parse2 hab
    have h2' := pad2_parse2 hcd
    have e1 : x / 100 = hi := by omega
    have e2 : x % 100 = lo := by omega
    unfold pad4
    unfold pad2 at h1 h2'
    have g1 : x / 1000 = hi / 10 := by omega
    have g2 : x / 100 % 10 = hi % 10 := by omega
    have g3 : x / 10 % 10 = lo / 10 := by omega
    have g4 : x % 10 = lo % 10 := by omega
    rw [g1, g2, g3, g4]
    have l1 := h1.1
    have l2 := h2'.1
    simp only [List.cons.injEq, and_true] at l1 l2
    rw [l1.1, l1.2, l2.1, l2.2]
    exact ⟨rfl, by omega⟩
  case _ =>
    exact Option.noConfusion h

/-- Bound: `daysInMonth` never exceeds 31. -/
theorem daysInMonth_le (y m : Nat) : daysInMonth y m ≤ 31 := by
  unfold daysInMonth
  split_ifs <;> omega

/-- A day index of at least 306 (0001-01-01) has civil year at least 1. -/
theorem cfdYear_pos {z : Nat} (h : 306 ≤ z) : 1 ≤ cfdYear z := by
  by_contra h0
  have hy : cfdYear z = 0 := by omega
  have hrt := daysFromCivil_civilFromDays z
  have hval := civilFromDays_valid z
  have hm : ¬ cfdMonth z ≤ 2 := by
    intro hm2
    unfold cfdYear at hy
    rw [if_pos hm2] at hy
    omega
  unfold daysFromCivil at hrt
  rw [if_neg hm, hy] at hrt
  have hmp : mpOfMonth (cfdMonth z) ≤ 9 := by
    unfold mpOfMonth
    split <;> omega
  have hms : monthStart (mpOfMonth (cfdMonth z)) ≤ 275 := by
    unfold monthStart
    omega
  have hday : cfdDay z ≤ 31 := by
    have := daysInMonth_le (cfdYear z) (cfdMonth z)
    omega
  have hz0 : doeOfYoe (0 % 400) = 0 := by
    norm_num [doeOfYoe]
  rw [hz0] at hrt
  omega

/-- A day index below 10000-01-01 has civil year at most 9999. -/
theorem cfdYear_le {z : Nat} (h : z < 3652365) : cfdYear z ≤ 9999 := by
  by_contra h0
  have hy : 10000 ≤ cfdYear z := by omega
  have hrt := daysFromCivil_civilFromDays z
  have hval := civilFromDays_valid z
  unfold daysFromCivil at hrt
  by_cases hm : cfdMonth z ≤ 2
  · rw [if_pos hm] at hrt
    have hmp : 10 ≤ mpOfMonth (cfdMonth z) := by
      unfold mpOfMonth
      split <;> omega
    have hms : 306 ≤ monthStart (mpOfMonth (cfdMonth z)) := by
      unfold monthStart
      omega
    rcases Nat.lt_or_ge (cfdYear z - 1) 10000 with hA | hA
    · have hA9 : cfdYear z - 1 = 9999 := by omega
      rw [hA9] at hrt
      norm_num [doeOfYoe] at hrt
      omega
    · have h25 : 25 ≤ (cfdYear z - 1) / 400 := by omega
      omega
  · rw [if_neg hm] at hrt
    have h25 : 25 ≤ cfdYear z / 400 := by omega
    omega

/-- The characters of the member-name prefix of a timestamp, strftime
%Y/%m/%d/%H%M at minute resolution. -/
def prefixChars (t : Nat) : List Char :=
  pad4 (dtYear t) ++ '/' :: pad2 (dtMonth t) ++ '/' :: pad2 (dtDay t) ++
    '/' :: pad2 (dtHour t) ++ pad2 (dtMinute t)

/-- Model of `SDOMLlite.date_to_prefix`: format a timestamp as its member-name prefix. -/
def dateToPrefix (t : Nat) : String := String.mk (prefixChars t)

/-- Parse a fixed-width YYYY/MM/DD/HHMM prefix, validating every field exactly
as Python `strptime` and the `datetime` constructor do (month 1-12, day within
the Gregorian month length, hour below 24, minute below 60, year at least
`datetime.MINYEAR = 1`). -/
def dateOfPrefixChars (l : List Char) : Option Nat :=
  match l with
  | [y1, y2, y3, y4, '/', m1, m2, '/', d1, d2, '/', h1, h2, n1, n2] =>
    match parse4 y1 y2 y3 y4, parse2 m1 m2, parse2 d1 d2, parse2 h1 h2,
        parse2 n1 n2 with
    | some y, some mo, some d, some hh, some mi =>
      if 1 ≤ y ∧ 1 ≤ mo ∧ mo ≤ 12 ∧ 1 ≤ d ∧ d ≤ daysInMonth y mo ∧ hh ≤ 23 ∧
          mi ≤ 59 then
        some (dtOfCivil y mo d hh mi)
      else
        none
    | _, _, _, _, _ => none
  | _ => none

/-- Model of `SDOMLlite.prefix_to_date`: strptime %Y/%m/%d/%H%M on a member-name prefix. -/
def prefixToDate (s : String) : Option Nat := dateOfPrefixChars s.data

/-- Timestamp of 0001-01-01T00:00, the smallest valid Python datetime. -/
def minValidDT : Nat := 440640

/-- Timestamp of 10000-01-01T00:00, one past the largest valid datetime day. -/
def maxValidDT : Nat := 5259405600

theorem prefixChars_round {t : Nat} (h1 : minValidDT ≤ t) (h2 : t < maxValidDT) :
    dateOfPrefixChars (prefixChars t) = some t := by
  have hy1 : 1 ≤ dtYear t := cfdYear_pos (by unfold minValidDT at h1; omega)
  have hy2 : dtYear t ≤ 9999 := cfdYear_le (by unfold maxValidDT at h2; omega)
  have hval := civilFromDays_valid (t / 1440)
  have hmo1 : 1 ≤ dtMonth t := hval.1
  have hmo2 : dtMonth t ≤ 12 := hval.2.1
  have hd1 : 1 ≤ dtDay t := hval.2.2.1
  have hd2 : dtDay t ≤ daysInMonth (dtYear t) (dtMonth t) := hval.2.2.2
  have hd31 : dtDay t ≤ 31 := by
    have := daysInMonth_le (dtYear t) (dtMonth t)
    omega
  have hh23 : dtHour t ≤ 23 := by unfold dtHour; omega
  have hmi59 : dtMinute t ≤ 59 := by unfold dtMinute; omega
  unfold prefixChars pad4 pad2
  simp only [List.cons_append, List.nil_append]
  simp only [dateOfPrefixChars]
  rw [parse4_pad4 (by omega), parse2_pad2 (by omega), parse2_pad2 (by omega),
    parse2_pad2 (by omega), parse2_pad2 (by omega)]
  dsimp only
  rw [if_pos ⟨hy1, hmo1, hmo2, hd1, hd2, hh23, hmi59⟩]
  rw [dtOfCivil_fields]

theorem prefixChars_parse {l : List Char} {t : Nat}
    (h : dateOfPrefixChars l = some t) : prefixChars t = l := by
  unfold dateOfPrefixChars at h
  split at h
  case _ y1 y2 y3 y4 m1 m2 d1 d2 hh1 hh2 n1 n2 =>
    split at h
    case _ y mo d hh mi hp4 hpm hpd hph hpn =>
      split at h
      case isTrue hcond =>
        injection h with h2
        subst h2
        have hf := dt_fields_of_civil y mo d hh mi hcond.1 hcond.2.1 hcond.2.2.1
          hcond.2.2.2.1 hcond.2.2.2.2.1 hcond.2.2.2.2.2.1 hcond.2.2.2.2.2.2
        unfold prefixChars
        rw [hf.1, hf.2.1, hf.2.2.1, hf.2.2.2.1, hf.2.2.2.2]
        rw [(pad4_parse4 hp4).1, (pad2_parse2 hpm).1, (pad2_parse2 hpd).1,
          (pad2_parse2 hph).1, (pad2_parse2 hpn).1]
        rfl
      case isFalse =>
        exact Option.noConfusion h
    case _ =>
      exact Option.noConfusion h
  case _ =>
    exact Option.noConfusion h

/-! ### Embedding of `dataset.py`.

Tar container files are modelled as pairs of a file name and the list of
members, each member a pair of its name and its raw payload (an abstract type
standing for the bytes `tarfile` would extract). Python dicts are modelled as
association lists with Python insertion-order semantics. Decoded arrays are an
abstract type produced by an abstract `np.load`. -/

/-- Python exceptions raised by the modelled code paths. -/
inductive PyErr where
  /-- `ValueError: No tar files found in data directory` in
  `TarRandomAccess.__init__`. -/
  | valueNoTarFiles
  /-- `IndexError` from `self.data.prefixes[0]` on an empty prefix list. -/
  | indexZero
  /-- `ValueError` raised by `strptime` in `prefix_to_date`. -/
  | strptimeFailure
  /-- `RuntimeError: No frames found with given list of channels`. -/
  | noFrames
  /-- `TypeError` from subscripting or loading `None`. -/
  | typeNone
  /-- `ValueError: Unknown data type for file` in `WebDataset.decode`. -/
  | valueUnknownData
  /-- `KeyError` from `data[file]` on a missing dict key. -/
  | keyMissing
  /-- `RuntimeError: Should not happen` in `SDOMLlite.get_data`. -/
  | shouldNotHappen
  /-- `IndexError` from `self.dates[index]` out of range. -/
  | indexOutOfRange
  /-- `ValueError: need at least one array to stack` from `np.stack([])`. -/
  | valueNeedOneArray
  /-- `ValueError: all input arrays must have the same shape` from `np.stack`. -/
  | valueShapeMismatch
  deriving DecidableEq

/-- Python dict lookup `d.get(k)` on an association list. -/
def pyGet {γ : Type} : List (String × γ) → String → Option γ
  | [], _ => none
  | (k, v) :: rest, key => if k = key then some v else pyGet rest key

/-- Python dict assignment `d[k] = v`: updates in place, keeps first-insertion
position, appends new keys at the end. -/
def pyInsert {γ : Type} : List (String × γ) → String → γ → List (String × γ)
  | [], key, val => [(key, val)]
  | (k, v) :: rest, key, val =>
    if k = key then (k, val) :: rest else (k, v) :: pyInsert rest key val

/-- Python `d[k].append(v)` with `d[k] = []` on first sight of `k`. -/
def pyAppendList : List (String × List String) → String → String →
    List (String × List String)
  | [], key, v => [(key, [v])]
  | (k, l) :: rest, key, v =>
    if k = key then (k, l ++ [v]) :: rest else (k, l) :: pyAppendList rest key v

/-- Lexicographic comparison of character lists by code point. -/
def charListLe : List Char → List Char → Bool
  | [], _ => true
  | _ :: _, [] => false
  | a :: as, b :: bs =>
    if a.toNat < b.toNat then true
    else if b.toNat < a.toNat then false
    else charListLe as bs

/-- String order used by `sorted(glob(...))`. -/
def strLeB (a b : String) : Bool := charListLe a.data b.data

/-- Insertion step of the sort of the tar file list. -/
def sortTarsInsert {γ : Type} (x : String × γ) :
    List (String × γ) → List (String × γ)
  | [] => [x]
  | y :: ys => if strLeB x.1 y.1 then x :: y :: ys else y :: sortTarsInsert x ys

/-- Model of `sorted(glob(os.path.join(data_dir, '*.tar')))`: the directory listing
sorted by file name. -/
def sortTars {γ : Type} (l : List (String × γ)) : List (String × γ) :=
  l.foldr sortTarsInsert []

/-- Index of all members of all tar files: member name to (tar file name,
member payload), later tar files overwriting earlier ones on name collision
(Python dict assignment). -/
def buildTarIndex {β : Type} (tars : List (String × List (String × β))) :
    List (String × (String × β)) :=
  tars.foldl
    (fun idx tf => tf.2.foldl (fun idx m => pyInsert idx m.1 (tf.1, m.2)) idx) []

/-- Model of `TarRandomAccess.__init__`: fails if no tar files are present; loads the
member-index cache unconditionally when the cache artifact exists; otherwise
scans the sorted tar files and builds the index. -/
def tarRandomAccessInit {β : Type} (tars : List (String × List (String × β)))
    (cache : Option (List (String × (String × β)))) :
    Except PyErr (List (String × (String × β))) :=
  if tars.isEmpty then .error .valueNoTarFiles
  else
    match cache with
    | some idx => .ok idx
    | none => .ok (buildTarIndex (sortTars tars))

/-- Model of `TarRandomAccess.__getitem__`: extract a member payload by name, `none`
when the name is not indexed. -/
def tarGet {β : Type} (idx : List (String × (String × β))) (name : String) :
    Option β :=
  (pyGet idx name).map Prod.snd

/-- Model of `file_name.split('.', 1)` on the character list: split at the first dot. -/
def splitDot : List Char → Option (List Char × List Char)
  | [] => none
  | c :: cs =>
    if c = '.' then some ([], cs)
    else
      match splitDot cs with
      | none => none
      | some (a, b) => some (c :: a, b)

/-- Lifting of `splitDot` to `String`: `none` when the name has no dot (such names are
ignored by `WebDataset.__init__`). -/
def splitOnce (s : String) : Option (String × String) :=
  match splitDot s.data with
  | none => none
  | some (a, b) => some (String.mk a, String.mk b)

/-- Model of `WebDataset.__init__` index construction: group member-name postfixes by
prefix, prefixes kept in first-seen order. -/
def webDatasetIndex (fileNames : List String) : List (String × List String) :=
  fileNames.foldl
    (fun idx fn =>
      match splitOnce fn with
      | none => idx
      | some (pfx, sfx) => pyAppendList idx pfx sfx) []

/-- Model of `WebDataset.prefixes`: the distinct prefixes in first-seen order. -/
def webPrefixes (idx : List (String × List String)) : List String :=
  idx.map Prod.fst

/-- Does the file name end in `.npy` (the only decodable extension)? -/
def listBeginsWith : List Char → List Char → Bool
  | [], _ => true
  | _ :: _, [] => false
  | a :: as, b :: bs => a == b && listBeginsWith as bs

/-- Model of `file_name.endswith('.npy')`. -/
def endsWithNpy (s : String) : Bool :=
  listBeginsWith ['y', 'p', 'n', '.'] s.data.reverse

/-- Model of `SDOMLlite.find_date_range`: timestamps of the first and the last prefix;
an empty prefix list or an unparsable boundary prefix is a fatal error. -/
def findDateRange (pfxs : List String) : Except PyErr (Nat × Nat) :=
  match pfxs with
  | [] => .error .indexZero
  | p0 :: rest =>
    match prefixToDate p0, prefixToDate (rest.getLastD p0) with
    | some a, some b => .ok (a, b)
    | _, _ => .error .strptimeFailure

/-- Clamping of the requested start date against the discovered range
(lines 104-111 of `dataset.py`). -/
def clampStart (gS gE : Nat) (dS : Option Nat) : Nat :=
  match dS with
  | some ds => if gS ≤ ds ∧ ds < gE then ds else gS
  | none => gS

/-- Clamping of the requested end date: validated against the already-clamped
effective start and the discovered end (lines 112-118 of `dataset.py`). -/
def clampEnd (s gE : Nat) (dE : Option Nat) : Nat :=
  match dE with
  | some de => if s < de ∧ de ≤ gE then de else gE
  | none => gE

/-- Effective (start, end) bounds from the discovered range and the requested
optional bounds. -/
def clampBounds (gS gE : Nat) (dS dE : Option Nat) : Nat × Nat :=
  (clampStart gS gE dS, clampEnd (clampStart gS gE dS) gE dE)

/-- Model of `self.delta_minutes = 15`: the fixed cadence. -/
def deltaMinutes : Nat := 15

/-- Model of `total_steps = total_minutes // self.delta_minutes` with
`total_minutes = int((date_end - date_start).total_seconds() / 60)`: Python
floor division of the possibly negative span; a nonpositive count gives an
empty `range`. -/
def totalSteps (dS dE : Nat) : Nat :=
  (((dE : Int) - (dS : Int)).fdiv 15).toNat

/-- Loop body of the date scan (lines 145-164 of `dataset.py`): a slot is kept
when its prefix is indexed, every requested channel file is among its
postfixes, and no exclusion window contains it. -/
def slotKeep (sIdx : List (String × List String)) (channels : List String)
    (excl : Option (List (Nat × Nat))) (date : Nat) : Bool :=
  (match pyGet sIdx (dateToPrefix date) with
   | none => false
   | some sfxs => channels.all (fun ch => decide ((ch ++ ".npy") ∈ sfxs)))
  && (match excl with
      | none => true
      | some ws => ws.all (fun w => !(decide (w.1 ≤ date) && decide (date < w.2))))

/-- The date scan: every slot at the fixed cadence from the effective start,
end exclusive, filtered by `slotKeep`. -/
def computeDates (sIdx : List (String × List String)) (channels : List String)
    (dS dE : Nat) (excl : Option (List (Nat × Nat))) : List Nat :=
  ((List.range (totalSteps dS dE)).map (fun i => dS + deltaMinutes * i)).filter
    (slotKeep sIdx channels excl)

/-- The dates list: loaded from the date-list cache when the cache artifact
exists, otherwise computed by the date scan. -/
def storeDates (sIdx : List (String × List String)) (channels : List String)
    (dS dE : Nat) (excl : Option (List (Nat × Nat)))
    (datesCache : Option (List Nat)) : List Nat :=
  match datesCache with
  | some ds => ds
  | none => computeDates sIdx channels dS dE excl

/-- The constructed `SDOMLlite` sample store. -/
structure Store (β : Type) where
  /-- `self.data.tars.index`: the member index. -/
  tarIdx : List (String × (String × β))
  /-- `self.data.index`: the sample index, prefix to postfix list. -/
  sIdx : List (String × List String)
  /-- `self.channels`. -/
  channels : List String
  /-- `self.date_start`, after clamping. -/
  dateStart : Nat
  /-- `self.date_end`, after clamping. -/
  dateEnd : Nat
  /-- `self.date_exclusions`. -/
  dateExclusions : Option (List (Nat × Nat))
  /-- `self.dates`: the Temporal Index (`self.dates_set` is its set of
  members). -/
  dates : List Nat
  deriving DecidableEq

/-- Model of `SDOMLlite.__init__`: build the member index (or load its cache), derive
the sample index, discover and clamp the date range, build the Temporal Index
(or load the date-list cache), and fail when it is empty. -/
def sdomlInit {β : Type} (tars : List (String × List (String × β)))
    (tarCache : Option (List (String × (String × β))))
    (channels : List String) (dS dE : Option Nat)
    (excl : Option (List (Nat × Nat))) (datesCache : Option (List Nat)) :
    Except PyErr (Store β) :=
  match tarRandomAccessInit tars tarCache with
  | .error e => .error e
  | .ok tarIdx =>
    match findDateRange (webPrefixes (webDatasetIndex (tarIdx.map Prod.fst))) with
    | .error e => .error e
    | .ok gRange =>
      if (storeDates (webDatasetIndex (tarIdx.map Prod.fst)) channels
            (clampStart gRange.1 gRange.2 dS)
            (clampEnd (clampStart gRange.1 gRange.2 dS) gRange.2 dE) excl
            datesCache).isEmpty then
        .error .noFrames
      else
        .ok ⟨tarIdx, webDatasetIndex (tarIdx.map Prod.fst), channels,
          clampStart gRange.1 gRange.2 dS,
          clampEnd (clampStart gRange.1 gRange.2 dS) gRange.2 dE, excl,
          storeDates (webDatasetIndex (tarIdx.map Prod.fst)) channels
            (clampStart gRange.1 gRange.2 dS)
            (clampEnd (clampStart gRange.1 gRange.2 dS) gRange.2 dE) excl
            datesCache⟩

/-- Model of `WebDataset.decode`: `np.load` for `.npy` members (the abstract `npyLoad`),
a hard `ValueError` for any other extension; loading a `None` payload is the
`TypeError` `np.load(None)` would raise. -/
def decode {β α : Type} (npyLoad : β → α) (b : Option β) (fileName : String) :
    Except PyErr α :=
  if endsWithNpy fileName then
    match b with
    | some bytes => .ok (npyLoad bytes)
    | none => .error .typeNone
  else .error .valueUnknownData

/-- The decoding loop of `WebDataset.__getitem__`: decode every postfix of the
sample, reconstructing each member name as `prefix + '.' + postfix`. -/
def decodeAll {β α : Type} (npyLoad : β → α)
    (tarIdx : List (String × (String × β))) (pfx : String) :
    List String → Except PyErr (List (String × α))
  | [] => .ok []
  | sfx :: rest =>
    match decode npyLoad (tarGet tarIdx (pfx ++ "." ++ sfx)) (pfx ++ "." ++ sfx) with
    | .error e => .error e
    | .ok a =>
      match decodeAll npyLoad tarIdx pfx rest with
      | .error e => .error e
      | .ok sample => .ok ((sfx, a) :: sample)

/-- Model of `WebDataset.__getitem__` with a string index: `none` for an unindexed
prefix, otherwise the decoded sample as a postfix-to-array dict. -/
def webSample {β α : Type} (npyLoad : β → α)
    (tarIdx : List (String × (String × β)))
    (sIdx : List (String × List String)) (pfx : String) :
    Except PyErr (Option (List (String × α))) :=
  match pyGet sIdx pfx with
  | none => .ok none
  | some sfxs =>
    match decodeAll npyLoad tarIdx pfx sfxs with
    | .error e => .error e
    | .ok sample => .ok (some sample)

/-- The channel-lookup loop of `SDOMLlite.get_data` (lines 223 to 227): look
up `channel + '.npy'` for every requested channel in order, collecting the
arrays in a list; a missing key is a `KeyError`. The subsequent `np.stack`
call is modelled separately by `npStack`. -/
def stackChannels {α : Type} (sample : List (String × α)) :
    List String → Except PyErr (List α)
  | [] => .ok []
  | ch :: rest =>
    match pyGet sample (ch ++ ".npy") with
    | none => .error .keyMissing
    | some a =>
      match stackChannels sample rest with
      | .error e => .error e
      | .ok arrs => .ok (a :: arrs)

/-- Model of `np.stack(channels)` followed by `torch.from_numpy`: `np.stack`
raises `ValueError` on an empty array list, and raises `ValueError` when the
arrays do not all share one shape (`shape` is the abstract shape observation
on the abstract array type); otherwise the stacked tensor is modelled as the
ordered list of the stacked arrays. -/
def npStack {α : Type} (shape : α → List Nat) (arrs : List α) :
    Except PyErr (List α) :=
  match arrs with
  | [] => .error .valueNeedOneArray
  | a :: rest =>
    if rest.all (fun b => shape b == shape a) then .ok (a :: rest)
    else .error .valueShapeMismatch

/-- Does some exclusion window `[start, end)` contain the date? -/
def containsExcluded (excl : Option (List (Nat × Nat))) (date : Nat) : Bool :=
  match excl with
  | none => false
  | some ws => ws.any (fun w => decide (w.1 ≤ date) && decide (date < w.2))

/-- Model of `SDOMLlite.get_data`: the "not found" soft-fail sentinel (`None`) for a
date outside the date set, the `RuntimeError` guard for excluded dates, then
sample retrieval, the channel-lookup loop and the `np.stack` call. -/
def getData {β α : Type} (npyLoad : β → α) (shape : α → List Nat)
    (st : Store β) (date : Nat) : Except PyErr (Option (List α)) :=
  if date ∈ st.dates then
    if containsExcluded st.dateExclusions date then .error .shouldNotHappen
    else
      match webSample npyLoad st.tarIdx st.sIdx (dateToPrefix date) with
      | .error e => .error e
      | .ok none => .error .typeNone
      | .ok (some sample) =>
        match stackChannels sample st.channels with
        | .error e => .error e
        | .ok arrs =>
          match npStack shape arrs with
          | .error e => .error e
          | .ok stacked => .ok (some stacked)
  else .ok none

/-- Model of `date.isoformat()` for a minute-resolution datetime:
YYYY-MM-DDTHH:MM:SS with zero seconds. -/
def isoformat (t : Nat) : String :=
  String.mk (pad4 (dtYear t) ++ '-' :: pad2 (dtMonth t) ++ '-' :: pad2 (dtDay t)
    ++ 'T' :: pad2 (dtHour t) ++ ':' :: pad2 (dtMinute t) ++ [':', '0', '0'])

/-- Model of `SDOMLlite.__getitem__` with an integer index: the date at that ordinal in
the Temporal Index, paired with its ISO timestamp string. -/
def getItem {β α : Type} (npyLoad : β → α) (shape : α → List Nat)
    (st : Store β) (i : Nat) : Except PyErr (Option (List α) × String) :=
  match st.dates.get? i with
  | none => .error .indexOutOfRange
  | some date =>
    match getData npyLoad shape st date with
    | .error e => .error e
    | .ok dataOpt => .ok (dataOpt, isoformat date)

/-- Model of `SDOMLlite.__getitem__` with a datetime (or a parsed ISO string) index. -/
def getItemDate {β α : Type} (npyLoad : β → α) (shape : α → List Nat)
    (st : Store β) (date : Nat) : Except PyErr (Option (List α) × String) :=
  match getData npyLoad shape st date with
  | .error e => .error e
  | .ok dataOpt => .ok (dataOpt, isoformat date)

/-! ### Shared lemmas about the embedding. -/

theorem pyGet_isSome {γ : Type} {l : List (String × γ)} {k : String}
    (h : k ∈ l.map Prod.fst) : ∃ v, pyGet l k = some v := by
  induction l with
  | nil => simp at h
  | cons hd tl ih =>
    unfold pyGet
    by_cases hk : hd.1 = k
    · exact ⟨hd.2, by rw [if_pos hk]⟩
    · simp only [List.map_cons, List.mem_cons] at h
      rcases h with h | h
      · exact absurd h.symm hk
      · rw [if_neg hk]
        exact ih h

theorem pyGet_pyAppendList_self (acc : List (String × List String))
    (k : String) (v : String) :
    pyGet (pyAppendList acc k v) k = some ((pyGet acc k).getD [] ++ [v]) := by
  induction acc with
  | nil => simp [pyAppendList, pyGet]
  | cons hd tl ih =>
    rcases hd with ⟨k0, l0⟩
    unfold pyAppendList
    by_cases hk : k0 = k
    · rw [if_pos hk]
      simp [pyGet, hk]
    · rw [if_neg hk]
      simp only [pyGet, if_neg hk]
      exact ih

theorem pyGet_pyAppendList_other (acc : List (String × List String))
    (k v : String) {p : String} (h : p ≠ k) :
    pyGet (pyAppendList acc k v) p = pyGet acc p := by
  induction acc with
  | nil =>
    simp only [pyAppendList, pyGet]
    rw [if_neg (fun hc => h hc.symm)]
  | cons hd tl ih =>
    rcases hd with ⟨k0, l0⟩
    unfold pyAppendList
    by_cases hk : k0 = k
    · rw [if_pos hk]
      have hne : k0 ≠ p := by
        intro hc
        exact h (by rw [← hc]; exact hk)
      simp only [pyGet, if_neg hne]
    · rw [if_neg hk]
      by_cases hp : k0 = p
      · simp only [pyGet, if_pos hp]
      · simp only [pyGet, if_neg hp]
        exact ih

theorem splitDot_eq : ∀ {l a b : List Char}, splitDot l = some (a, b) →
    l = a ++ '.' :: b := by
  intro l
  induction l with
  | nil => intro a b h; simp [splitDot] at h
  | cons c cs ih =>
    intro a b h
    unfold splitDot at h
    by_cases hc : c = '.'
    · rw [if_pos hc] at h
      injection h with h
      rw [Prod.mk.injEq] at h
      rw [hc, ← h.1, ← h.2]
      rfl
    · rw [if_neg hc] at h
      cases hsd : splitDot cs with
      | none => rw [hsd] at h; exact Option.noConfusion h
      | some ab =>
        rcases ab with ⟨a0, b0⟩
        rw [hsd] at h
        injection h with h
        rw [Prod.mk.injEq] at h
        rw [← h.1, ← h.2]
        rw [ih hsd]
        rfl

theorem splitOnce_eq {fn : String} {p s : String}
    (h : splitOnce fn = some (p, s)) : p ++ "." ++ s = fn := by
  unfold splitOnce at h
  cases hsd : splitDot fn.data with
  | none => rw [hsd] at h; exact Option.noConfusion h
  | some ab =>
    rcases ab with ⟨a, b⟩
    rw [hsd] at h
    injection h with h
    rw [Prod.mk.injEq] at h
    have hdata := splitDot_eq hsd
    apply String.ext
    rw [String.data_append, String.data_append, ← h.1, ← h.2]
    rw [hdata]
    simp

theorem webIndex_mem :
    ∀ (names : List String) (acc : List (String × List String))
      (p : String) (l : List String),
      pyGet (List.foldl
        (fun idx fn =>
          match splitOnce fn with
          | none => idx
          | some (pfx, sfx) => pyAppendList idx pfx sfx) acc names) p = some l →
      ∀ s ∈ l, (∃ fn ∈ names, splitOnce fn = some (p, s)) ∨
        (∃ l0, pyGet acc p = some l0 ∧ s ∈ l0) := by
  intro names
  induction names with
  | nil =>
    intro acc p l h s hs
    exact Or.inr ⟨l, h, hs⟩
  | cons fn rest ih =>
    intro acc p l h s hs
    rw [List.foldl_cons] at h
    rcases ih _ p l h s hs with ⟨fn0, hfn0, hsp⟩ | ⟨l0, hl0, hsl0⟩
    · exact Or.inl ⟨fn0, List.mem_cons_of_mem _ hfn0, hsp⟩
    · cases hso : splitOnce fn with
      | none =>
        rw [hso] at hl0
        exact Or.inr ⟨l0, hl0, hsl0⟩
      | some ps =>
        rcases ps with ⟨pfx, sfx⟩
        rw [hso] at hl0
        by_cases hp : p = pfx
        · subst hp
          rw [pyGet_pyAppendList_self] at hl0
          injection hl0 with hl0
          rw [← hl0] at hsl0
          rcases List.mem_append.1 hsl0 with hold | hnew
          · cases hacc : pyGet acc p with
            | none =>
              rw [hacc] at hold
              simp at hold
            | some lacc =>
              rw [hacc] at hold
              exact Or.inr ⟨lacc, rfl, by simpa using hold⟩
          · have : s = sfx := by simpa using hnew
            subst this
            exact Or.inl ⟨fn, List.mem_cons_self _ _, hso⟩
        · rw [pyGet_pyAppendList_other _ _ _ hp] at hl0
          exact Or.inr ⟨l0, hl0, hsl0⟩

theorem webDatasetIndex_mem {names : List String} {p s : String}
    {l : List String} (h : pyGet (webDatasetIndex names) p = some l)
    (hs : s ∈ l) : (p ++ "." ++ s) ∈ names := by
  rcases webIndex_mem names [] p l h s hs with ⟨fn, hfn, hsp⟩ | ⟨l0, hl0, _⟩
  · rw [← splitOnce_eq hsp] at hfn
    exact hfn
  · simp [pyGet] at hl0

/-- The exclusion windows as a plain list. -/
def exclList : Option (List (Nat × Nat)) → List (Nat × Nat)
  | none => []
  | some ws => ws

theorem totalSteps_iff (dS dE i : Nat) :
    i < totalSteps dS dE ↔ dS + deltaMinutes * (i + 1) ≤ dE := by
  unfold totalSteps deltaMinutes
  rw [Int.fdiv_eq_ediv _ (by norm_num)]
  omega

theorem slotKeep_iff (sIdx : List (String × List String))
    (channels : List String) (excl : Option (List (Nat × Nat))) (date : Nat) :
    slotKeep sIdx channels excl date = true ↔
      ((∃ sfxs, pyGet sIdx (dateToPrefix date) = some sfxs ∧
          ∀ c ∈ channels, (c ++ ".npy") ∈ sfxs) ∧
        ∀ w ∈ exclList excl, ¬(w.1 ≤ date ∧ date < w.2)) := by
  unfold slotKeep
  rw [Bool.and_eq_true]
  apply and_congr
  · cases hpg : pyGet sIdx (dateToPrefix date) with
    | none => simp
    | some sfxs => simp [List.all_eq_true]
  · cases excl with
    | none => simp [exclList]
    | some ws =>
      simp only [exclList, List.all_eq_true]
      apply forall_congr'
      intro w
      apply imp_congr Iff.rfl
      simp [Bool.and_eq_true, not_and]
      omega

theorem computeDates_mem (sIdx : List (String × List String))
    (channels : List String) (dS dE : Nat) (excl : Option (List (Nat × Nat)))
    (T : Nat) :
    T ∈ computeDates sIdx channels dS dE excl ↔
      ((∃ i, i < totalSteps dS dE ∧ T = dS + deltaMinutes * i) ∧
        slotKeep sIdx channels excl T = true) := by
  unfold computeDates
  rw [List.mem_filter]
  simp only [List.mem_map, List.mem_range]
  constructor
  · rintro ⟨⟨i, hi, rfl⟩, hk⟩
    exact ⟨⟨i, hi, rfl⟩, hk⟩
  · rintro ⟨⟨i, hi, rfl⟩, hk⟩
    exact ⟨⟨i, hi, rfl⟩, hk⟩

theorem computeDates_pairwise (sIdx : List (String × List String))
    (channels : List String) (dS dE : Nat)
    (excl : Option (List (Nat × Nat))) :
    (computeDates sIdx channels dS dE excl).Pairwise (· < ·) := by
  unfold computeDates
  apply List.Pairwise.filter
  rw [List.pairwise_map]
  apply List.Pairwise.imp ?_ (List.pairwise_lt_range (totalSteps dS dE))
  intro a b hab
  unfold deltaMinutes
  omega

theorem containsExcluded_eq_false {excl : Option (List (Nat × Nat))} {d : Nat}
    (h : ∀ w ∈ exclList excl, ¬(w.1 ≤ d ∧ d < w.2)) :
    containsExcluded excl d = false := by
  unfold containsExcluded
  cases excl with
  | none => rfl
  | some ws =>
    rw [List.any_eq_false]
    intro w hw
    have := h w hw
    simp only [Bool.and_eq_true, decide_eq_true_eq]
    intro hc
    exact this ⟨hc.1, hc.2⟩

theorem sdomlInit_ok {β : Type} {tars : List (String × List (String × β))}
    {tarCache : Option (List (String × (String × β)))} {channels : List String}
    {dS dE : Option Nat} {excl : Option (List (Nat × Nat))}
    {datesCache : Option (List Nat)} {st : Store β}
    (h : sdomlInit tars tarCache channels dS dE excl datesCache = .ok st) :
    ∃ tarIdx gR, tarRandomAccessInit tars tarCache = .ok tarIdx ∧
      findDateRange (webPrefixes (webDatasetIndex (tarIdx.map Prod.fst)))
        = .ok gR ∧
      st.tarIdx = tarIdx ∧
      st.sIdx = webDatasetIndex (tarIdx.map Prod.fst) ∧
      st.channels = channels ∧
      st.dateStart = clampStart gR.1 gR.2 dS ∧
      st.dateEnd = clampEnd (clampStart gR.1 gR.2 dS) gR.2 dE ∧
      st.dateExclusions = excl ∧
      st.dates = storeDates (webDatasetIndex (tarIdx.map Prod.fst)) channels
        (clampStart gR.1 gR.2 dS) (clampEnd (clampStart gR.1 gR.2 dS) gR.2 dE)
        excl datesCache ∧
      st.dates ≠ [] := by
  unfold sdomlInit at h
  split at h
  case h_1 => exact Except.noConfusion h
  case h_2 tarIdx heq1 =>
    split at h
    case h_1 => exact Except.noConfusion h
    case h_2 gR heq2 =>
      split at h
      case isTrue => exact Except.noConfusion h
      case isFalse hne =>
        injection h with h
        subst h
        refine ⟨tarIdx, gR, heq1, heq2, rfl, rfl, rfl, rfl, rfl, rfl, rfl, ?_⟩
        intro hc
        apply hne
        rw [List.isEmpty_iff]
        exact hc

theorem decodeAll_ok {β α : Type} (npyLoad : β → α)
    (tarIdx : List (String × (String × β))) (pfx : String) :
    ∀ sfxs : List String,
      (∀ sfx ∈ sfxs, endsWithNpy (pfx ++ "." ++ sfx) = true) →
      (∀ sfx ∈ sfxs, ∃ v, pyGet tarIdx (pfx ++ "." ++ sfx) = some v) →
      ∃ sample, decodeAll npyLoad tarIdx pfx sfxs = .ok sample ∧
        sample.map Prod.fst = sfxs := by
  intro sfxs
  induction sfxs with
  | nil => exact fun _ _ => ⟨[], rfl, rfl⟩
  | cons sfx rest ih =>
    intro h1 h2
    obtain ⟨v, hv⟩ := h2 sfx (List.mem_cons_self _ _)
    have hdec : decode npyLoad (tarGet tarIdx (pfx ++ "." ++ sfx))
        (pfx ++ "." ++ sfx) = .ok (npyLoad v.2) := by
      unfold decode
      rw [if_pos (h1 sfx (List.mem_cons_self _ _))]
      unfold tarGet
      rw [hv]
      rfl
    obtain ⟨sample, hs, hk⟩ := ih (fun s hs => h1 s (List.mem_cons_of_mem _ hs))
      (fun s hs => h2 s (List.mem_cons_of_mem _ hs))
    refine ⟨(sfx, npyLoad v.2) :: sample, ?_, ?_⟩
    · unfold decodeAll
      rw [hdec, hs]
    · simp [hk]

theorem stackChannels_ok {α : Type} (sample : List (String × α)) :
    ∀ channels : List String,
      (∀ c ∈ channels, (c ++ ".npy") ∈ sample.map Prod.fst) →
      ∃ arrs, stackChannels sample channels = .ok arrs ∧
        arrs.length = channels.length := by
  intro channels
  induction channels with
  | nil => exact fun _ => ⟨[], rfl, rfl⟩
  | cons c rest ih =>
    intro h
    obtain ⟨a, ha⟩ := pyGet_isSome (h c (List.mem_cons_self _ _))
    obtain ⟨arrs, hs, hlen⟩ := ih (fun x hx => h x (List.mem_cons_of_mem _ hx))
    refine ⟨a :: arrs, ?_, by simp [hlen]⟩
    unfold stackChannels
    rw [ha, hs]

theorem npStack_ok {α : Type} (shape : α → List Nat) (arrs : List α)
    (hne : arrs ≠ []) (hsh : ∀ a b : α, shape a = shape b) :
    npStack shape arrs = .ok arrs := by
  unfold npStack
  cases arrs with
  | nil => exact absurd rfl hne
  | cons a rest =>
    have hall : rest.all (fun b => shape b == shape a) = true := by
      rw [List.all_eq_true]
      intro b _
      rw [beq_iff_eq]
      exact hsh b a
    dsimp only
    rw [if_pos hall]

theorem npStack_ne_shnh {α : Type} (shape : α → List Nat) (arrs : List α) :
    npStack shape arrs ≠ .error .shouldNotHappen := by
  unfold npStack
  cases arrs with
  | nil => simp
  | cons a rest =>
    dsimp only
    split <;> simp

theorem decode_ne_shnh {β α : Type} (npyLoad : β → α) (b : Option β)
    (fileName : String) : decode npyLoad b fileName ≠ .error .shouldNotHappen := by
  unfold decode
  split
  · cases b <;> simp
  · simp

theorem decodeAll_ne_shnh {β α : Type} (npyLoad : β → α)
    (tarIdx : List (String × (String × β))) (pfx : String) :
    ∀ sfxs : List String,
      decodeAll npyLoad tarIdx pfx sfxs ≠ .error .shouldNotHappen := by
  intro sfxs
  induction sfxs with
  | nil => simp [decodeAll]
  | cons sfx rest ih =>
    unfold decodeAll
    cases hd : decode npyLoad (tarGet tarIdx (pfx ++ "." ++ sfx))
        (pfx ++ "." ++ sfx) with
    | error e =>
      intro hc
      injection hc with hc
      exact decode_ne_shnh npyLoad _ _ (by rw [hd, hc])
    | ok a =>
      cases hrest : decodeAll npyLoad tarIdx pfx rest with
      | error e =>
        intro hc
        injection hc with hc
        exact ih (by rw [hrest, hc])
      | ok sample => simp

theorem stackChannels_ne_shnh {α : Type} (sample : List (String × α)) :
    ∀ channels : List String,
      stackChannels sample channels ≠ .error .shouldNotHappen := by
  intro channels
  induction channels with
  | nil => simp [stackChannels]
  | cons c rest ih =>
    unfold stackChannels
    cases pyGet sample (c ++ ".npy") with
    | none => simp
    | some a =>
      cases hrest : stackChannels sample rest with
      | error e =>
        intro hc
        injection hc with hc
        exact ih (by rw [hrest, hc])
      | ok arrs => simp

theorem webSample_ne_shnh {β α : Type} (npyLoad : β → α)
    (tarIdx : List (String × (String × β)))
    (sIdx : List (String × List String)) (pfx : String) :
    webSample npyLoad tarIdx sIdx pfx ≠ .error .shouldNotHappen := by
  unfold webSample
  cases pyGet sIdx pfx with
  | none => simp
  | some sfxs =>
    dsimp only
    cases hd : decodeAll npyLoad tarIdx pfx sfxs with
    | error e =>
      dsimp only
      intro hc
      injection hc with hc
      exact decodeAll_ne_shnh npyLoad tarIdx pfx sfxs (by rw [hd, hc])
    | ok sample => simp

theorem getData_not_mem {β α : Type} (npyLoad : β → α) (shape : α → List Nat)
    (st : Store β) {date : Nat} (h : date ∉ st.dates) :
    getData npyLoad shape st date = .ok none := by
  unfold getData
  rw [if_neg h]

theorem getData_ne_shnh {β α : Type} (npyLoad : β → α) (shape : α → List Nat)
    (st : Store β)
    (date : Nat) (hex : containsExcluded st.dateExclusions date = false) :
    getData npyLoad shape st date ≠ .error .shouldNotHappen := by
  unfold getData
  by_cases hmem : date ∈ st.dates
  · rw [if_pos hmem, hex]
    simp only [Bool.false_eq_true, if_false]
    cases hws : webSample npyLoad st.tarIdx st.sIdx (dateToPrefix date) with
    | error e =>
      dsimp only
      intro hc
      injection hc with hc
      exact webSample_ne_shnh npyLoad st.tarIdx st.sIdx (dateToPrefix date)
        (by rw [hws, hc])
    | ok sopt =>
      cases sopt with
      | none => simp
      | some sample =>
        dsimp only
        cases hst : stackChannels sample st.channels with
        | error e =>
          dsimp only
          intro hc
          injection hc with hc
          exact stackChannels_ne_shnh sample st.channels (by rw [hst, hc])
        | ok arrs =>
          dsimp only
          cases hns : npStack shape arrs with
          | error e =>
            dsimp only
            intro hc
            injection hc with hc
            exact npStack_ne_shnh shape arrs (by rw [hns, hc])
          | ok stacked => simp
  · rw [if_neg hmem]
    simp

theorem getData_ok_some {β α : Type} (npyLoad : β → α) (shape : α → List Nat)
    (st : Store β)
    {date : Nat} {out : Option (List α)} (hmem : date ∈ st.dates)
    (h : getData npyLoad shape st date = .ok out) : ∃ arrs, out = some arrs := by
  unfold getData at h
  rw [if_pos hmem] at h
  split at h
  · exact Except.noConfusion h
  · split at h
    case h_1 => exact Except.noConfusion h
    case h_2 => exact Except.noConfusion h
    case h_3 sample heq =>
      split at h
      case h_1 => exact Except.noConfusion h
      case h_2 arrs heq2 =>
        split at h
        case h_1 => exact Except.noConfusion h
        case h_2 stacked heq3 =>
          injection h with h
          exact ⟨stacked, h.symm⟩

theorem getData_success {β α : Type} (npyLoad : β → α) (shape : α → List Nat)
    (st : Store β)
    (date : Nat) (hmem : date ∈ st.dates)
    (hex : containsExcluded st.dateExclusions date = false)
    (hsfxs : ∃ sfxs, pyGet st.sIdx (dateToPrefix date) = some sfxs ∧
      ∀ c ∈ st.channels, (c ++ ".npy") ∈ sfxs)
    (hnpy : ∀ fn ∈ st.tarIdx.map Prod.fst, endsWithNpy fn = true)
    (hweb : st.sIdx = webDatasetIndex (st.tarIdx.map Prod.fst))
    (hch0 : st.channels ≠ [])
    (hsh : ∀ a b : α, shape a = shape b) :
    ∃ arrs, getData npyLoad shape st date = .ok (some arrs) := by
  obtain ⟨sfxs, hpg, hch⟩ := hsfxs
  have hmemnames : ∀ sfx ∈ sfxs,
      (dateToPrefix date ++ "." ++ sfx) ∈ st.tarIdx.map Prod.fst := by
    intro sfx hs
    apply webDatasetIndex_mem ?_ hs
    rw [← hweb]
    exact hpg
  have h1 : ∀ sfx ∈ sfxs, endsWithNpy (dateToPrefix date ++ "." ++ sfx) = true :=
    fun sfx hs => hnpy _ (hmemnames sfx hs)
  have h2 : ∀ sfx ∈ sfxs,
      ∃ v, pyGet st.tarIdx (dateToPrefix date ++ "." ++ sfx) = some v :=
    fun sfx hs => pyGet_isSome (hmemnames sfx hs)
  obtain ⟨sample, hdec, hkeys⟩ := decodeAll_ok npyLoad st.tarIdx _ sfxs h1 h2
  obtain ⟨arrs, hstack, hlen⟩ := stackChannels_ok sample st.channels
    (by rw [hkeys]; exact hch)
  have harrs0 : arrs ≠ [] := by
    intro hc
    apply hch0
    rw [hc] at hlen
    exact List.length_eq_zero.1 hlen.symm
  have hns : npStack shape arrs = .ok arrs := npStack_ok shape arrs harrs0 hsh
  have hws : webSample npyLoad st.tarIdx st.sIdx (dateToPrefix date)
      = .ok (some sample) := by
    unfold webSample
    rw [hpg]
    dsimp only
    rw [hdec]
  refine ⟨arrs, ?_⟩
  unfold getData
  rw [if_pos hmem, hex]
  simp only [Bool.false_eq_true, if_false]
  rw [hws]
  dsimp only
  rw [hstack]
  dsimp only
  rw [hns]

/-! ### Concrete fixtures from the specification scenarios. -/

/-- Containers of the two-sample scenario: prefixes 2022/11/01/0000 and
2022/11/01/0015, each with channel files hmi_m and aia_0171; payloads are
abstract byte blobs modelled as distinct naturals. -/
def demoTars : List (String × List (String × Nat)) :=
  [("data.tar",
    [("2022/11/01/0000.hmi_m.npy", 10), ("2022/11/01/0000.aia_0171.npy", 11),
     ("2022/11/01/0015.hmi_m.npy", 12), ("2022/11/01/0015.aia_0171.npy", 13)])]

/-- The member names of the two-sample scenario. -/
def demoNames : List String :=
  ["2022/11/01/0000.hmi_m.npy", "2022/11/01/0000.aia_0171.npy",
   "2022/11/01/0015.hmi_m.npy", "2022/11/01/0015.aia_0171.npy"]

/-- The store of the two-sample scenario with channels hmi_m and aia_0171. -/
def demoStore : Store Nat :=
  (sdomlInit demoTars none ["hmi_m", "aia_0171"] none none none none).toOption.getD
    ⟨[], [], [], 0, 0, none, []⟩

/-- Containers holding a member that is not an .npy file under an otherwise
retained prefix. -/
def badTars : List (String × List (String × Nat)) :=
  [("d.tar",
    [("2022/11/01/0000.hmi_m.npy", 0), ("2022/11/01/0000.bad.txt", 1),
     ("2022/11/01/0015.hmi_m.npy", 2)])]

/-! ### The claims. -/

/-- C1: for every candidate slot of the fixed 15-minute enumeration from the
effective start (end exclusive), the slot is retained in the Temporal Index
iff its formatted prefix is in the Sample Index, every requested channel file
(channel name + ".npy") is among the postfixes of that prefix, and no
exclusion window [start, end) contains the slot timestamp. -/
theorem C1_slot_retained_iff (sIdx : List (String × List String))
    (channels : List String) (dS dE : Nat) (excl : Option (List (Nat × Nat)))
    (i : Nat) (hi : i < totalSteps dS dE) :
    (dS + deltaMinutes * i) ∈ computeDates sIdx channels dS dE excl ↔
      ((∃ sfxs, pyGet sIdx (dateToPrefix (dS + deltaMinutes * i)) = some sfxs ∧
          ∀ c ∈ channels, (c ++ ".npy") ∈ sfxs) ∧
        ∀ w ∈ exclList excl,
          ¬(w.1 ≤ dS + deltaMinutes * i ∧ dS + deltaMinutes * i < w.2)) := by
  rw [computeDates_mem, ← slotKeep_iff]
  constructor
  · intro h
    exact h.2
  · intro h
    exact ⟨⟨i, hi, rfl⟩, h⟩

/-- Witness for C1 at the exclusion scenario: slot 0 of the enumeration from
2022-11-01T00:00 to 00:15 with an exclusion window [00:10, 00:20). -/
theorem C1_slot_retained_iff_witness :
    (dtOfCivil 2022 11 1 0 0 + deltaMinutes * 0) ∈
        computeDates (webDatasetIndex demoNames) ["hmi_m", "aia_0171"]
          (dtOfCivil 2022 11 1 0 0) (dtOfCivil 2022 11 1 0 15)
          (some [(dtOfCivil 2022 11 1 0 10, dtOfCivil 2022 11 1 0 20)]) ↔
      ((∃ sfxs, pyGet (webDatasetIndex demoNames)
            (dateToPrefix (dtOfCivil 2022 11 1 0 0 + deltaMinutes * 0))
            = some sfxs ∧
          ∀ c ∈ ["hmi_m", "aia_0171"], (c ++ ".npy") ∈ sfxs) ∧
        ∀ w ∈ exclList
            (some [(dtOfCivil 2022 11 1 0 10, dtOfCivil 2022 11 1 0 20)]),
          ¬(w.1 ≤ dtOfCivil 2022 11 1 0 0 + deltaMinutes * 0 ∧
            dtOfCivil 2022 11 1 0 0 + deltaMinutes * 0 < w.2)) :=
  C1_slot_retained_iff (webDatasetIndex demoNames) ["hmi_m", "aia_0171"]
    (dtOfCivil 2022 11 1 0 0) (dtOfCivil 2022 11 1 0 15)
    (some [(dtOfCivil 2022 11 1 0 10, dtOfCivil 2022 11 1 0 20)]) 0 (by decide)

/-- C2: every timestamp of the computed Temporal Index is an exact multiple of
the 15-minute cadence from the effective start, lies in [date_start,
date_end), and the index is sorted strictly ascending (hence duplicate-free). -/
theorem C2_temporal_index_invariants (sIdx : List (String × List String))
    (channels : List String) (dS dE : Nat)
    (excl : Option (List (Nat × Nat))) :
    (∀ T ∈ computeDates sIdx channels dS dE excl,
      (∃ k, T = dS + deltaMinutes * k) ∧ dS ≤ T ∧ T < dE) ∧
    (computeDates sIdx channels dS dE excl).Pairwise (· < ·) := by
  constructor
  · intro T hT
    rw [computeDates_mem] at hT
    obtain ⟨⟨i, hi, rfl⟩, _⟩ := hT
    have hb := (totalSteps_iff dS dE i).1 hi
    refine ⟨⟨i, rfl⟩, by omega, ?_⟩
    unfold deltaMinutes at hb ⊢
    omega
  · exact computeDates_pairwise sIdx channels dS dE excl

/-- Witness for C2 at the retained slot of the exclusion scenario. -/
theorem C2_temporal_index_invariants_witness :
    (∃ k, dtOfCivil 2022 11 1 0 0
        = dtOfCivil 2022 11 1 0 0 + deltaMinutes * k) ∧
      dtOfCivil 2022 11 1 0 0 ≤ dtOfCivil 2022 11 1 0 0 ∧
      dtOfCivil 2022 11 1 0 0 < dtOfCivil 2022 11 1 0 15 :=
  (C2_temporal_index_invariants (webDatasetIndex demoNames)
    ["hmi_m", "aia_0171"] (dtOfCivil 2022 11 1 0 0) (dtOfCivil 2022 11 1 0 15)
    (some [(dtOfCivil 2022 11 1 0 10, dtOfCivil 2022 11 1 0 20)])).1
    (dtOfCivil 2022 11 1 0 0) (by decide)

/-- C4: a timestamp absent from the Temporal Index is answered with the
"not found" sentinel (a `None` data payload), not an exception. -/
theorem C4_not_found_soft {β α : Type} (npyLoad : β → α)
    (shape : α → List Nat) (st : Store β)
    (date : Nat) (h : date ∉ st.dates) :
    getItemDate npyLoad shape st date = .ok (none, isoformat date) := by
  unfold getItemDate
  rw [getData_not_mem npyLoad shape st h]

/-- Witness for C4: `get("2022-11-01T00:05")` on the two-sample scenario store
returns the sentinel. -/
theorem C4_not_found_soft_witness :
    getItemDate (fun b : Nat => b) (fun _ : Nat => ([] : List Nat)) demoStore
        (dtOfCivil 2022 11 1 0 5)
      = .ok (none, isoformat (dtOfCivil 2022 11 1 0 5)) :=
  C4_not_found_soft (fun b : Nat => b) (fun _ : Nat => ([] : List Nat))
    demoStore (dtOfCivil 2022 11 1 0 5) (by decide)

/-- C3: a construction that succeeds always holds a nonempty Temporal Index —
equivalently, zero dated samples after enumeration and filtering (or after
loading the date-list cache) abort construction with the dataset construction
error — and in particular requesting channel aia_0193, present in no sample of
the two-sample scenario, fails with the "no frames" error rather than
yielding an empty store. -/
theorem C3_empty_dates_fatal :
    (∀ (β : Type) (tars : List (String × List (String × β)))
        (tarCache : Option (List (String × (String × β))))
        (channels : List String) (dS dE : Option Nat)
        (excl : Option (List (Nat × Nat))) (datesCache : Option (List Nat))
        (st : Store β),
      sdomlInit tars tarCache channels dS dE excl datesCache = .ok st →
      st.dates ≠ []) ∧
    sdomlInit demoTars none ["aia_0193"] none none none none
      = .error .noFrames := by
  constructor
  · intro β tars tarCache channels dS dE excl datesCache st h
    obtain ⟨_, _, _, _, _, _, _, _, _, _, _, hne⟩ := sdomlInit_ok h
    exact hne
  · rfl

/-- Witness for C3: the two-sample scenario store construction succeeds and
its Temporal Index is nonempty. -/
theorem C3_empty_dates_fatal_witness : demoStore.dates ≠ [] :=
  C3_empty_dates_fatal.1 Nat demoTars none ["hmi_m", "aia_0171"] none none none
    none demoStore (by rfl)

/-- C8: the prefix and timestamp conversions are mutually inverse — formatting
any valid cadence-aligned minute-resolution timestamp and parsing the prefix
back returns the timestamp, and parsing any prefix accepted by
`prefix_to_date` and formatting the result returns the original prefix. -/
theorem C8_prefix_roundtrip :
    (∀ t : Nat, minValidDT ≤ t → t < maxValidDT → t % 15 = 0 →
      prefixToDate (dateToPrefix t) = some t) ∧
    (∀ (s : String) (t : Nat), prefixToDate s = some t → dateToPrefix t = s) := by
  constructor
  · intro t h1 h2 _
    exact prefixChars_round h1 h2
  · intro s t h
    unfold prefixToDate at h
    unfold dateToPrefix
    rw [prefixChars_parse h]

/-- Witness for C8 at 2022-11-01T00:00 and its prefix string. -/
theorem C8_prefix_roundtrip_witness :
    prefixToDate (dateToPrefix (dtOfCivil 2022 11 1 0 0))
        = some (dtOfCivil 2022 11 1 0 0) ∧
      dateToPrefix 1063821600 = "2022/11/01/0000" :=
  ⟨C8_prefix_roundtrip.1 (dtOfCivil 2022 11 1 0 0) (by decide) (by decide)
      (by decide),
    C8_prefix_roundtrip.2 "2022/11/01/0000" 1063821600 (by decide)⟩

/-- C9: no timestamp of the computed Temporal Index lies inside any exclusion
window, and consequently the hard-failure "Should not happen" branch of
`get_data` is unreachable for dates taken from a constructed index. -/
theorem C9_excluded_unreachable {β α : Type} (npyLoad : β → α)
    (shape : α → List Nat) :
    (∀ (sIdx : List (String × List String)) (channels : List String)
        (dS dE : Nat) (excl : Option (List (Nat × Nat))) (T : Nat),
      T ∈ computeDates sIdx channels dS dE excl →
      ∀ w ∈ exclList excl, ¬(w.1 ≤ T ∧ T < w.2)) ∧
    (∀ (tars : List (String × List (String × β)))
        (tarCache : Option (List (String × (String × β))))
        (channels : List String) (dS dE : Option Nat)
        (excl : Option (List (Nat × Nat))) (st : Store β) (T : Nat),
      sdomlInit tars tarCache channels dS dE excl none = .ok st →
      T ∈ st.dates →
      getData npyLoad shape st T ≠ .error .shouldNotHappen) := by
  have hpart1 : ∀ (sIdx : List (String × List String)) (channels : List String)
      (dS dE : Nat) (excl : Option (List (Nat × Nat))) (T : Nat),
      T ∈ computeDates sIdx channels dS dE excl →
      ∀ w ∈ exclList excl, ¬(w.1 ≤ T ∧ T < w.2) := by
    intro sIdx channels dS dE excl T hT
    rw [computeDates_mem] at hT
    exact ((slotKeep_iff sIdx channels excl T).1 hT.2).2
  refine ⟨hpart1, ?_⟩
  intro tars tarCache channels dS dE excl st T hinit hmem
  obtain ⟨tarIdx, gR, _, _, _, _, _, _, _, hexcl, hdates, _⟩ := sdomlInit_ok hinit
  rw [hdates] at hmem
  have hT : T ∈ computeDates (webDatasetIndex (tarIdx.map Prod.fst)) channels
      (clampStart gR.1 gR.2 dS) (clampEnd (clampStart gR.1 gR.2 dS) gR.2 dE)
      excl := hmem
  apply getData_ne_shnh
  rw [hexcl]
  exact containsExcluded_eq_false (hpart1 _ _ _ _ _ _ hT)

/-- Witness for C9: the retained slot of the exclusion scenario is in no
window, and `get_data` on it does not hit the "Should not happen" branch. -/
theorem C9_excluded_unreachable_witness :
    (¬((dtOfCivil 2022 11 1 0 10, dtOfCivil 2022 11 1 0 20).1
          ≤ dtOfCivil 2022 11 1 0 0 ∧
        dtOfCivil 2022 11 1 0 0
          < (dtOfCivil 2022 11 1 0 10, dtOfCivil 2022 11 1 0 20).2)) ∧
    getData (fun b : Nat => b) (fun _ : Nat => ([] : List Nat)) demoStore
        (dtOfCivil 2022 11 1 0 0)
      ≠ .error .shouldNotHappen :=
  ⟨(C9_excluded_unreachable (fun b : Nat => b)
        (fun _ : Nat => ([] : List Nat))).1 (webDatasetIndex demoNames)
      ["hmi_m", "aia_0171"] (dtOfCivil 2022 11 1 0 0)
      (dtOfCivil 2022 11 1 0 15)
      (some [(dtOfCivil 2022 11 1 0 10, dtOfCivil 2022 11 1 0 20)])
      (dtOfCivil 2022 11 1 0 0) (by decide) _ (by decide),
    (C9_excluded_unreachable (fun b : Nat => b)
        (fun _ : Nat => ([] : List Nat))).2 demoTars none
      ["hmi_m", "aia_0171"] none none none demoStore (dtOfCivil 2022 11 1 0 0)
      (by rfl) (by decide)⟩

/-- C5 counterexample: a member-index cache produced from container set
{a.tar} is returned unchanged when construction runs over the different
container set {b.tar}, and it differs from the index a fresh build over
{b.tar} would produce — the changed container file set does not invalidate
the cache. -/
theorem C5_counterexample :
    tarRandomAccessInit [("b.tar", [("2022/11/01/0000.hmi_m.npy", (1 : Nat))])]
        (some [("2022/11/01/0000.aia_0171.npy", ("a.tar", (0 : Nat)))])
      = .ok [("2022/11/01/0000.aia_0171.npy", ("a.tar", 0))] ∧
    buildTarIndex
        (sortTars [("b.tar", [("2022/11/01/0000.hmi_m.npy", (1 : Nat))])])
      ≠ [("2022/11/01/0000.aia_0171.npy", ("a.tar", 0))] := by
  constructor
  · rfl
  · decide

/-- C5 amended: the persisted member-index cache, once present, is loaded
unconditionally — build-or-load over any nonempty container file set returns
the cached index regardless of whether that set produced it. -/
theorem C5_trust_cache {β : Type} (tars : List (String × List (String × β)))
    (idx : List (String × (String × β))) (h : tars ≠ []) :
    tarRandomAccessInit tars (some idx) = .ok idx := by
  unfold tarRandomAccessInit
  rw [if_neg (fun hc => h (List.isEmpty_iff.1 hc))]

/-- Witness for the amended C5. -/
theorem C5_trust_cache_witness :
    tarRandomAccessInit [("b.tar", [("2022/11/01/0000.hmi_m.npy", (1 : Nat))])]
        (some [("2022/11/01/0000.aia_0171.npy", ("a.tar", (0 : Nat)))])
      = .ok [("2022/11/01/0000.aia_0171.npy", ("a.tar", 0))] :=
  C5_trust_cache [("b.tar", [("2022/11/01/0000.hmi_m.npy", (1 : Nat))])]
    [("2022/11/01/0000.aia_0171.npy", ("a.tar", (0 : Nat)))] (by decide)

/-- C6 counterexample: with member names discovered in unsorted order, the
default date range is taken from the first and last prefix in first-seen
order — here (00:15, 00:00) — although the parsable prefix 2022/11/01/0000 is
earlier than the chosen start, so the defaults are not the earliest/latest
parsable prefix timestamps. -/
theorem C6_counterexample :
    findDateRange (webPrefixes (webDatasetIndex
        ["2022/11/01/0015.hmi_m.npy", "2022/11/01/0000.hmi_m.npy"]))
      = .ok (dtOfCivil 2022 11 1 0 15, dtOfCivil 2022 11 1 0 0) ∧
    "2022/11/01/0000" ∈ webPrefixes (webDatasetIndex
        ["2022/11/01/0015.hmi_m.npy", "2022/11/01/0000.hmi_m.npy"]) ∧
    prefixToDate "2022/11/01/0000" = some (dtOfCivil 2022 11 1 0 0) ∧
    dtOfCivil 2022 11 1 0 0 < dtOfCivil 2022 11 1 0 15 := by
  refine ⟨rfl, by decide, by decide, by decide⟩

/-- C6 amended: when no date bounds are requested, the default range is the
parsed timestamps of the first and of the last prefix in first-seen member
order (these equal the earliest and latest parsable prefixes only when the
member names arrive sorted); a boundary prefix that fails to parse is a fatal
construction error, not a fallback. -/
theorem C6_first_last_prefix (p0 : String) (rest : List String) (a b : Nat)
    (h : findDateRange (p0 :: rest) = .ok (a, b)) :
    prefixToDate p0 = some a ∧ prefixToDate (rest.getLastD p0) = some b := by
  unfold findDateRange at h
  dsimp only at h
  split at h
  case h_1 x y hx hy =>
    injection h with h
    rw [Prod.mk.injEq] at h
    rw [hx, hy, h.1, h.2]
    exact ⟨rfl, rfl⟩
  case h_2 =>
    exact Except.noConfusion h

/-- Witness for the amended C6 on a sorted two-prefix listing. -/
theorem C6_first_last_prefix_witness :
    prefixToDate "2022/11/01/0000" = some (dtOfCivil 2022 11 1 0 0) ∧
    prefixToDate (["2022/11/01/0015"].getLastD "2022/11/01/0000")
      = some (dtOfCivil 2022 11 1 0 15) :=
  C6_first_last_prefix "2022/11/01/0000" ["2022/11/01/0015"]
    (dtOfCivil 2022 11 1 0 0) (dtOfCivil 2022 11 1 0 15) (by rfl)

/-- C7 counterexample: discovered range 0..120, requested start 60 (accepted),
requested end 30; the end bound lies within the discovered global range
(0 < 30 ≤ 120) yet the effective end is the discovered 120, not 30 — because
the code validates the end against the already-clamped start. -/
theorem C7_counterexample :
    (0 < 30 ∧ 30 ≤ 120) ∧
    clampBounds 0 120 (some 60) (some 30) = (60, 120) ∧
    (clampBounds 0 120 (some 60) (some 30)).2 ≠ 30 := by
  refine ⟨by decide, rfl, by decide⟩

/-- C7 amended: a requested start bound becomes effective iff it lies in
[discovered start, discovered end), else the discovered start is kept; a
requested end bound is validated against the already-clamped effective start:
it becomes effective iff it is strictly greater than the effective start and
at most the discovered end, else the discovered end is kept. All four cases
are non-fatal. -/
theorem C7_clamping (gS gE ds de : Nat) :
    (gS ≤ ds ∧ ds < gE → clampStart gS gE (some ds) = ds) ∧
    (¬(gS ≤ ds ∧ ds < gE) → clampStart gS gE (some ds) = gS) ∧
    (clampStart gS gE (some ds) < de ∧ de ≤ gE →
      clampEnd (clampStart gS gE (some ds)) gE (some de) = de) ∧
    (¬(clampStart gS gE (some ds) < de ∧ de ≤ gE) →
      clampEnd (clampStart gS gE (some ds)) gE (some de) = gE) := by
  refine ⟨fun h => ?_, fun h => ?_, fun h => ?_, fun h => ?_⟩
  · unfold clampStart
    dsimp only
    rw [if_pos h]
  · unfold clampStart
    dsimp only
    rw [if_neg h]
  · unfold clampEnd
    dsimp only
    rw [if_pos h]
  · unfold clampEnd
    dsimp only
    rw [if_neg h]

/-- Witness for the amended C7 at the counterexample configuration. -/
theorem C7_clamping_witness :
    clampStart 0 120 (some 60) = 60 ∧
    clampEnd (clampStart 0 120 (some 60)) 120 (some 30) = 120 :=
  ⟨(C7_clamping 0 120 60 30).1 (by decide),
    (C7_clamping 0 120 60 30).2.2.2 (by decide)⟩

/-- C10 counterexample: a store over containers holding a non-.npy member
(bad.txt) under a retained prefix constructs successfully, but ordinal
retrieval get(0) raises the decode error instead of returning a stacked
channel tensor; and with an empty channel list over all-.npy containers the
store also constructs, yet get(0) raises the `np.stack([])` error — in both
cases the promised stacked-tensor return does not hold as claimed. -/
theorem C10_counterexample :
    ((sdomlInit badTars none ["hmi_m"] none none none none).isOk = true ∧
      ((sdomlInit badTars none ["hmi_m"] none none none none).bind
          (fun st => getItem (fun b : Nat => b) (fun _ : Nat => ([] : List Nat))
            st 0))
        = .error .valueUnknownData) ∧
    ((sdomlInit demoTars none [] none none none none).isOk = true ∧
      ((sdomlInit demoTars none [] none none none none).bind
          (fun st => getItem (fun b : Nat => b) (fun _ : Nat => ([] : List Nat))
            st 0))
        = .error .valueNeedOneArray) := by
  exact ⟨⟨rfl, rfl⟩, ⟨rfl, rfl⟩⟩

/-- C10 amended: for a store constructed without a date-list cache and any
ordinal below the index length, the resolved date is a member of the Temporal
Index and retrieval never soft-fails — a successful call never returns the
"not found" sentinel — and, provided every container member is an .npy file,
the requested channel list is nonempty and all arrays share one shape (so
that `np.stack` cannot raise), the call succeeds and returns the stacked
channels paired with the ISO timestamp of that date. -/
theorem C10_ordinal_no_softfail {β α : Type} (npyLoad : β → α)
    (shape : α → List Nat)
    (tars : List (String × List (String × β)))
    (tarCache : Option (List (String × (String × β))))
    (channels : List String) (dS dE : Option Nat)
    (excl : Option (List (Nat × Nat))) (st : Store β) (i : Nat)
    (hinit : sdomlInit tars tarCache channels dS dE excl none = .ok st)
    (hi : i < st.dates.length) :
    ∃ date, st.dates.get? i = some date ∧ date ∈ st.dates ∧
      (∀ out, getItem npyLoad shape st i = .ok out →
        ∃ arrs, out = (some arrs, isoformat date)) ∧
      ((∀ fn ∈ st.tarIdx.map Prod.fst, endsWithNpy fn = true) →
        st.channels ≠ [] → (∀ a b : α, shape a = shape b) →
        ∃ arrs, getItem npyLoad shape st i
          = .ok (some arrs, isoformat date)) := by
  obtain ⟨tarIdx, gR, _, _, htar, hsidx, hch, _, _, hexcl, hdates, _⟩ :=
    sdomlInit_ok hinit
  have hdate' : st.dates.get? i = some (st.dates.get ⟨i, hi⟩) :=
    List.get?_eq_get hi
  set date := st.dates.get ⟨i, hi⟩ with hdatedef
  have hmem : date ∈ st.dates := List.get_mem _ _ _
  have hmemC : date ∈ computeDates (webDatasetIndex (tarIdx.map Prod.fst))
      channels (clampStart gR.1 gR.2 dS)
      (clampEnd (clampStart gR.1 gR.2 dS) gR.2 dE) excl := by
    rw [hdates] at hmem
    exact hmem
  have hkeep := (computeDates_mem _ _ _ _ _ _).1 hmemC
  have hslot := (slotKeep_iff _ _ _ _).1 hkeep.2
  have hexfalse : containsExcluded st.dateExclusions date = false := by
    rw [hexcl]
    exact containsExcluded_eq_false hslot.2
  refine ⟨date, hdate', hmem, ?_, ?_⟩
  · intro out hout
    unfold getItem at hout
    rw [hdate'] at hout
    dsimp only at hout
    cases hgd : getData npyLoad shape st date with
    | error e =>
      rw [hgd] at hout
      exact Except.noConfusion hout
    | ok o =>
      rw [hgd] at hout
      dsimp only at hout
      injection hout with hout
      obtain ⟨arrs, harrs⟩ := getData_ok_some npyLoad shape st hmem hgd
      exact ⟨arrs, by rw [← hout, harrs]⟩
  · intro hnpy hch0 hsh
    have hsuccess : ∃ arrs, getData npyLoad shape st date = .ok (some arrs) := by
      apply getData_success npyLoad shape st date hmem hexfalse
      · rw [hsidx, hch]
        exact hslot.1
      · rw [htar]
        rw [htar] at hnpy
        exact hnpy
      · rw [hsidx, htar]
      · exact hch0
      · exact hsh
    obtain ⟨arrs, hgd⟩ := hsuccess
    refine ⟨arrs, ?_⟩
    unfold getItem
    rw [hdate']
    dsimp only
    rw [hgd]

/-- Witness for the amended C10 at ordinal 0 of the two-sample scenario
store. -/
theorem C10_ordinal_no_softfail_witness :
    ∃ date, demoStore.dates.get? 0 = some date ∧ date ∈ demoStore.dates ∧
      (∀ out, getItem (fun b : Nat => b) (fun _ : Nat => ([] : List Nat))
          demoStore 0 = .ok out →
        ∃ arrs, out = (some arrs, isoformat date)) ∧
      ((∀ fn ∈ demoStore.tarIdx.map Prod.fst, endsWithNpy fn = true) →
        demoStore.channels ≠ [] →
        (∀ a b : Nat, (fun _ : Nat => ([] : List Nat)) a
          = (fun _ : Nat => ([] : List Nat)) b) →
        ∃ arrs, getItem (fun b : Nat => b) (fun _ : Nat => ([] : List Nat))
          demoStore 0 = .ok (some arrs, isoformat date)) :=
  C10_ordinal_no_softfail (fun b : Nat => b) (fun _ : Nat => ([] : List Nat))
    demoTars none
    ["hmi_m", "aia_0171"] none none none demoStore 0 (by rfl) (by decide)

end SDOMLlite
